import Mathlib

/-!
Verification of the PyQt cycle-time pipeline core: the timestamp extractor
(getCycleTime.py), the statistics and chart writers (boxPlot.py, lineChart.py),
the index store readers (sortCycletime.py, compare_min_max.py), the log
classifier (sortCycletime.py) and the comparison-table builder
(compare_min_max.py), shallowly embedded over lists, strings and rationals.
Numeric cells are modelled as exact rationals; CSV reading is modelled as an
already-split grid of cells.
-/

namespace CycleTime

/-! ### Generic lexicographic comparison on lists of naturals.
Python compares strings by code points and datetimes field by field; both
reduce to this one order. -/

/-- Lexicographic less-or-equal on lists of naturals (Python's sequence order). -/
def lexLe : List Nat → List Nat → Bool
  | [], _ => true
  | _ :: _, [] => false
  | a :: as, b :: bs =>
    if a < b then true
    else if b < a then false
    else lexLe as bs

/-- Strict lexicographic order on lists of naturals. -/
def lexLt : List Nat → List Nat → Bool
  | [], [] => false
  | [], _ :: _ => true
  | _ :: _, [] => false
  | a :: as, b :: bs =>
    if a < b then true
    else if b < a then false
    else lexLt as bs

theorem lexLe_refl (l : List Nat) : lexLe l l = true := by
  induction l with
  | nil => rfl
  | cons a as ih => simp [lexLe, ih]

theorem lexLe_total (a b : List Nat) : lexLe a b || lexLe b a := by
  induction a generalizing b with
  | nil => simp [lexLe]
  | cons x xs ih =>
    cases b with
    | nil => simp [lexLe]
    | cons y ys =>
      by_cases h1 : x < y
      · simp [lexLe, h1]
      · by_cases h2 : y < x
        · simp [lexLe, h1, h2]
        · simpa [lexLe, h1, h2] using ih ys

theorem lexLe_trans (a b c : List Nat) (h1 : lexLe a b) (h2 : lexLe b c) :
    lexLe a c = true := by
  induction a generalizing b c with
  | nil => rfl
  | cons x xs ih =>
    cases b with
    | nil => simp [lexLe] at h1
    | cons y ys =>
      cases c with
      | nil => simp [lexLe] at h2
      | cons z zs =>
        rcases Nat.lt_trichotomy x y with hxy | hxy | hxy
        · rcases Nat.lt_trichotomy y z with hyz | hyz | hyz
          · simp [lexLe, Nat.lt_trans hxy hyz]
          · subst hyz; simp [lexLe, hxy]
          · simp [lexLe, hyz, Nat.lt_asymm hyz] at h2
        · subst hxy
          rcases Nat.lt_trichotomy x z with hyz | hyz | hyz
          · simp [lexLe, hyz]
          · subst hyz
            simp only [lexLe, Nat.lt_irrefl, if_false] at h1 h2 ⊢
            exact ih ys zs h1 h2
          · simp [lexLe, hyz, Nat.lt_asymm hyz] at h2
        · simp [lexLe, hxy, Nat.lt_asymm hxy] at h1

theorem lexLe_antisymm (a b : List Nat) (h1 : lexLe a b) (h2 : lexLe b a) : a = b := by
  induction a generalizing b with
  | nil =>
    cases b with
    | nil => rfl
    | cons y ys => simp [lexLe] at h2
  | cons x xs ih =>
    cases b with
    | nil => simp [lexLe] at h1
    | cons y ys =>
      rcases Nat.lt_trichotomy x y with hxy | hxy | hxy
      · simp [lexLe, hxy, Nat.lt_asymm hxy] at h2
      · subst hxy
        simp only [lexLe, Nat.lt_irrefl, if_false] at h1 h2
        rw [ih ys h1 h2]
      · simp [lexLe, hxy, Nat.lt_asymm hxy] at h1

theorem lexLe_of_not_le (a b : List Nat) (h : ¬ lexLe a b = true) : lexLe b a = true := by
  have := lexLe_total a b
  rcases Bool.or_eq_true_iff.mp this with h1 | h1
  · exact absurd h1 h
  · exact h1

theorem lexLt_iff_not_le (a b : List Nat) : lexLt a b = !lexLe b a := by
  induction a generalizing b with
  | nil =>
    cases b <;> simp [lexLt, lexLe]
  | cons x xs ih =>
    cases b with
    | nil => simp [lexLt, lexLe]
    | cons y ys =>
      simp only [lexLt, lexLe]
      by_cases h1 : x < y
      · simp [h1, Nat.lt_asymm h1, Nat.ne_of_lt h1]
      · by_cases h2 : y < x
        · simp [h1, h2]
        · have : x = y := Nat.le_antisymm (Nat.le_of_not_lt h2) (Nat.le_of_not_lt h1)
          subst this
          simp [ih ys]

/-! ### Python string order (code-point lexicographic), as used by `sorted`. -/

/-- Python string comparison: lexicographic on code points. -/
def strLeB (s t : String) : Bool := lexLe (s.data.map Char.toNat) (t.data.map Char.toNat)

/-- Python string order as a proposition, for sorting. -/
def StrLe (s t : String) : Prop := strLeB s t = true

instance : DecidableRel StrLe := fun s t => inferInstanceAs (Decidable (strLeB s t = true))

instance : IsTotal String StrLe where
  total := fun a b => by
    rcases Bool.or_eq_true_iff.mp
      (lexLe_total (a.data.map Char.toNat) (b.data.map Char.toNat)) with h | h
    · exact Or.inl h
    · exact Or.inr h

instance : IsTrans String StrLe where
  trans := fun a b c h1 h2 => lexLe_trans _ _ _ h1 h2

theorem charCodes_inj {s t : String}
    (h : s.data.map Char.toNat = t.data.map Char.toNat) : s = t := by
  apply String.ext
  have : Function.Injective Char.toNat := fun a b hab => Char.ext (by
    have hv : a.val.toNat = b.val.toNat := hab
    exact UInt32.toNat.inj hv)
  exact List.map_injective_iff.mpr this h

instance : IsAntisymm String StrLe where
  antisymm := fun a b h1 h2 => charCodes_inj (lexLe_antisymm _ _ h1 h2)

/-! ### Timestamps: the regex `\d{4}-\d{2}-\d{2}_\d{2}-\d{2}-\d{2}` and
`datetime.strptime(tok, "%Y-%m-%d_%H-%M-%S")`. -/

/-- Decimal value of a list of digit characters (most significant first). -/
def blockVal : List Char → Nat
  | [] => 0
  | c :: cs => (c.toNat - 48) * 10 ^ cs.length + blockVal cs

/-- If the character list starts with the 19-character timestamp shape
`\d{4}-\d{2}-\d{2}_\d{2}-\d{2}-\d{2}`, return that token. -/
def tsShape? (cs : List Char) : Option (List Char) :=
  match cs with
  | y1 :: y2 :: y3 :: y4 :: '-' :: m1 :: m2 :: '-' :: d1 :: d2 :: '_' ::
      h1 :: h2 :: '-' :: n1 :: n2 :: '-' :: s1 :: s2 :: _ =>
    if y1.isDigit && y2.isDigit && y3.isDigit && y4.isDigit &&
       m1.isDigit && m2.isDigit && d1.isDigit && d2.isDigit &&
       h1.isDigit && h2.isDigit && n1.isDigit && n2.isDigit &&
       s1.isDigit && s2.isDigit then
      some [y1, y2, y3, y4, '-', m1, m2, '-', d1, d2, '_',
            h1, h2, '-', n1, n2, '-', s1, s2]
    else none
  | _ => none

/-- `re.search` of the timestamp pattern: leftmost match, scanning positions
left to right (the pattern has fixed length, so this is the full semantics). -/
def findTSToken : List Char → Option (List Char)
  | [] => none
  | c :: cs =>
    match tsShape? (c :: cs) with
    | some tok => some tok
    | none => findTSToken cs

/-- A `datetime.datetime` value as produced by `strptime`; comparison is
field-lexicographic. -/
structure PyDateTime where
  year : Nat
  month : Nat
  day : Nat
  hour : Nat
  minute : Nat
  second : Nat
deriving DecidableEq, Repr

def PyDateTime.fields (t : PyDateTime) : List Nat :=
  [t.year, t.month, t.day, t.hour, t.minute, t.second]

/-- Python datetime `<=` (lexicographic on the fields). -/
def dtLeB (a b : PyDateTime) : Bool := lexLe a.fields b.fields

def DtLe (a b : PyDateTime) : Prop := dtLeB a b = true

instance : DecidableRel DtLe := fun s t => inferInstanceAs (Decidable (dtLeB s t = true))

instance : IsTotal PyDateTime DtLe where
  total := fun a b => by
    rcases Bool.or_eq_true_iff.mp (lexLe_total a.fields b.fields) with h | h
    · exact Or.inl h
    · exact Or.inr h

instance : IsTrans PyDateTime DtLe where
  trans := fun a b c h1 h2 => lexLe_trans _ _ _ h1 h2

theorem PyDateTime.fields_inj {a b : PyDateTime} (h : a.fields = b.fields) : a = b := by
  cases a; cases b
  simp only [PyDateTime.fields, List.cons.injEq, and_true] at h
  obtain ⟨h1, h2, h3, h4, h5, h6⟩ := h
  subst h1 h2 h3 h4 h5; simp_all

instance : IsAntisymm PyDateTime DtLe where
  antisymm := fun a b h1 h2 => PyDateTime.fields_inj (lexLe_antisymm _ _ h1 h2)

def isLeapYear (y : Nat) : Bool := y % 4 == 0 && (y % 100 != 0 || y % 400 == 0)

def daysInMonth (y m : Nat) : Nat :=
  if m = 2 then (if isLeapYear y then 29 else 28)
  else if m = 4 ∨ m = 6 ∨ m = 9 ∨ m = 11 then 30
  else 31

/-- `datetime.strptime(tok, "%Y-%m-%d_%H-%M-%S")`: the whole string must match
the format, and the field values must form a valid calendar datetime
(year at least 1, month 1..12, day within the month, hour below 24, minute and
second below 60); otherwise `ValueError` is raised, which the caller turns into
`None`. -/
def strptimeTS (cs : List Char) : Option PyDateTime :=
  match cs with
  | [y1, y2, y3, y4, '-', m1, m2, '-', d1, d2, '_',
     h1, h2, '-', n1, n2, '-', s1, s2] =>
    if y1.isDigit && y2.isDigit && y3.isDigit && y4.isDigit &&
       m1.isDigit && m2.isDigit && d1.isDigit && d2.isDigit &&
       h1.isDigit && h2.isDigit && n1.isDigit && n2.isDigit &&
       s1.isDigit && s2.isDigit then
      let y := blockVal [y1, y2, y3, y4]
      let mo := blockVal [m1, m2]
      let d := blockVal [d1, d2]
      let h := blockVal [h1, h2]
      let mi := blockVal [n1, n2]
      let s := blockVal [s1, s2]
      if 1 ≤ y ∧ 1 ≤ mo ∧ mo ≤ 12 ∧ 1 ≤ d ∧ d ≤ daysInMonth y mo ∧
         h ≤ 23 ∧ mi ≤ 59 ∧ s ≤ 59 then
        some ⟨y, mo, d, h, mi, s⟩
      else none
    else none
  | _ => none

theorem digit_bounds (c : Char) (h : c.isDigit = true) : 48 ≤ c.toNat ∧ c.toNat ≤ 57 := by
  simp only [Char.isDigit, Bool.and_eq_true, decide_eq_true_eq] at h
  obtain ⟨h1, h2⟩ := h
  exact ⟨h1, h2⟩

theorem lexLe_cons_eq (x : Nat) (as bs : List Nat) :
    lexLe (x :: as) (x :: bs) = lexLe as bs := by
  simp [lexLe]

theorem blockVal_lt (cs : List Char) (h : ∀ c ∈ cs, c.isDigit = true) :
    blockVal cs < 10 ^ cs.length := by
  induction cs with
  | nil => simp [blockVal]
  | cons c cs ih =>
    have hc := digit_bounds c (h c (by simp))
    have hrec := ih (fun x hx => h x (by simp [hx]))
    have hd : c.toNat - 48 ≤ 9 := by omega
    have step1 : (c.toNat - 48) * 10 ^ cs.length + blockVal cs <
        (c.toNat - 48 + 1) * 10 ^ cs.length := by
      have : (c.toNat - 48 + 1) * 10 ^ cs.length
          = (c.toNat - 48) * 10 ^ cs.length + 10 ^ cs.length := by ring
      omega
    have step2 : (c.toNat - 48 + 1) * 10 ^ cs.length ≤ 10 * 10 ^ cs.length :=
      Nat.mul_le_mul_right _ (by omega)
    calc blockVal (c :: cs) = (c.toNat - 48) * 10 ^ cs.length + blockVal cs := rfl
      _ < (c.toNat - 48 + 1) * 10 ^ cs.length := step1
      _ ≤ 10 * 10 ^ cs.length := step2
      _ = 10 ^ (c :: cs).length := by simp [List.length_cons, pow_succ]; ring

theorem blockVal_head_lt (a b : Char) (as bs : List Char)
    (hlen : as.length = bs.length)
    (ha : a.isDigit = true) (hb : b.isDigit = true)
    (has : ∀ c ∈ as, c.isDigit = true)
    (hab : a.toNat < b.toNat) :
    blockVal (a :: as) < blockVal (b :: bs) := by
  have hba := digit_bounds a ha
  have hbb := digit_bounds b hb
  have h1 : blockVal as < 10 ^ as.length := blockVal_lt as has
  have h2 : (a.toNat - 48) + 1 ≤ b.toNat - 48 := by omega
  calc blockVal (a :: as) = (a.toNat - 48) * 10 ^ as.length + blockVal as := rfl
    _ < (a.toNat - 48) * 10 ^ as.length + 10 ^ as.length := by omega
    _ = ((a.toNat - 48) + 1) * 10 ^ as.length := by ring
    _ ≤ (b.toNat - 48) * 10 ^ as.length := Nat.mul_le_mul_right _ h2
    _ = (b.toNat - 48) * 10 ^ bs.length := by rw [hlen]
    _ ≤ (b.toNat - 48) * 10 ^ bs.length + blockVal bs := Nat.le_add_right _ _
    _ = blockVal (b :: bs) := rfl

theorem lexLe_digitBlock (xs ys : List Char) (as bs : List Nat)
    (hlen : xs.length = ys.length)
    (hx : ∀ c ∈ xs, c.isDigit = true) (hy : ∀ c ∈ ys, c.isDigit = true) :
    lexLe (xs.map Char.toNat ++ as) (ys.map Char.toNat ++ bs)
      = (if blockVal xs < blockVal ys then true
         else if blockVal ys < blockVal xs then false
         else lexLe as bs) := by
  induction xs generalizing ys with
  | nil =>
    cases ys with
    | nil => simp [blockVal]
    | cons y ys => simp at hlen
  | cons x xs ih =>
    cases ys with
    | nil => simp at hlen
    | cons y ys =>
      have hlen' : xs.length = ys.length := by simpa using hlen
      have hxd : x.isDigit = true := hx x (by simp)
      have hyd : y.isDigit = true := hy y (by simp)
      have hxs : ∀ c ∈ xs, c.isDigit = true := fun c hc => hx c (by simp [hc])
      have hys : ∀ c ∈ ys, c.isDigit = true := fun c hc => hy c (by simp [hc])
      rcases Nat.lt_trichotomy x.toNat y.toNat with hxy | hxy | hxy
      · have hbv : blockVal (x :: xs) < blockVal (y :: ys) :=
          blockVal_head_lt x y xs ys hlen' hxd hyd hxs hxy
        simp [lexLe, hxy, hbv]
      · have hbx := digit_bounds x hxd
        have heq : blockVal (x :: xs) < blockVal (y :: ys) ↔ blockVal xs < blockVal ys := by
          simp only [blockVal, hxy, hlen']
          omega
        have heqr : blockVal (y :: ys) < blockVal (x :: xs) ↔ blockVal ys < blockVal xs := by
          simp only [blockVal, hxy, hlen']
          omega
        have hl : lexLe ((x :: xs).map Char.toNat ++ as) ((y :: ys).map Char.toNat ++ bs)
            = lexLe (xs.map Char.toNat ++ as) (ys.map Char.toNat ++ bs) := by
          simp only [List.map_cons, List.cons_append, lexLe, hxy, Nat.lt_irrefl,
            if_false, List.append_eq]
        rw [hl, ih ys hlen' hxs hys]
        by_cases h1 : blockVal xs < blockVal ys
        · rw [if_pos h1, if_pos (heq.mpr h1)]
        · by_cases h2 : blockVal ys < blockVal xs
          · rw [if_neg h1, if_pos h2, if_neg (fun hc => h1 (heq.mp hc)),
              if_pos (heqr.mpr h2)]
          · rw [if_neg h1, if_neg h2, if_neg (fun hc => h1 (heq.mp hc)),
              if_neg (fun hc => h2 (heqr.mp hc))]
      · have hbv : blockVal (y :: ys) < blockVal (x :: xs) :=
          blockVal_head_lt y x ys xs hlen'.symm hyd hxd hys hxy
        have hnb : ¬ blockVal (x :: xs) < blockVal (y :: ys) := Nat.lt_asymm hbv
        simp [lexLe, hxy, Nat.lt_asymm hxy, hbv, hnb]

theorem lexLe_digits2 (m1 m2 n1 n2 : Char) (as bs : List Nat)
    (h1 : m1.isDigit = true) (h2 : m2.isDigit = true)
    (h3 : n1.isDigit = true) (h4 : n2.isDigit = true) :
    lexLe (m1.toNat :: m2.toNat :: as) (n1.toNat :: n2.toNat :: bs)
      = (if blockVal [m1, m2] < blockVal [n1, n2] then true
         else if blockVal [n1, n2] < blockVal [m1, m2] then false
         else lexLe as bs) := by
  have := lexLe_digitBlock [m1, m2] [n1, n2] as bs rfl
    (by intro c hc
        simp only [List.mem_cons, List.not_mem_nil, or_false] at hc
        rcases hc with rfl | rfl
        · exact h1
        · exact h2)
    (by intro c hc
        simp only [List.mem_cons, List.not_mem_nil, or_false] at hc
        rcases hc with rfl | rfl
        · exact h3
        · exact h4)
  simpa using this

theorem lexLe_digits4 (m1 m2 m3 m4 n1 n2 n3 n4 : Char) (as bs : List Nat)
    (h1 : m1.isDigit = true) (h2 : m2.isDigit = true)
    (h3 : m3.isDigit = true) (h4 : m4.isDigit = true)
    (h5 : n1.isDigit = true) (h6 : n2.isDigit = true)
    (h7 : n3.isDigit = true) (h8 : n4.isDigit = true) :
    lexLe (m1.toNat :: m2.toNat :: m3.toNat :: m4.toNat :: as)
          (n1.toNat :: n2.toNat :: n3.toNat :: n4.toNat :: bs)
      = (if blockVal [m1, m2, m3, m4] < blockVal [n1, n2, n3, n4] then true
         else if blockVal [n1, n2, n3, n4] < blockVal [m1, m2, m3, m4] then false
         else lexLe as bs) := by
  have := lexLe_digitBlock [m1, m2, m3, m4] [n1, n2, n3, n4] as bs rfl
    (by intro c hc
        simp only [List.mem_cons, List.not_mem_nil, or_false] at hc
        rcases hc with rfl | rfl | rfl | rfl
        · exact h1
        · exact h2
        · exact h3
        · exact h4)
    (by intro c hc
        simp only [List.mem_cons, List.not_mem_nil, or_false] at hc
        rcases hc with rfl | rfl | rfl | rfl
        · exact h5
        · exact h6
        · exact h7
        · exact h8)
  simpa using this

theorem strptimeTS_shape (cs : List Char) (a : PyDateTime)
    (hc : strptimeTS cs = some a) :
    ∃ y1 y2 y3 y4 m1 m2 d1 d2 h1 h2 n1 n2 s1 s2 : Char,
      cs = [y1, y2, y3, y4, '-', m1, m2, '-', d1, d2, '_',
            h1, h2, '-', n1, n2, '-', s1, s2] ∧
      (y1.isDigit && y2.isDigit && y3.isDigit && y4.isDigit &&
       m1.isDigit && m2.isDigit && d1.isDigit && d2.isDigit &&
       h1.isDigit && h2.isDigit && n1.isDigit && n2.isDigit &&
       s1.isDigit && s2.isDigit) = true ∧
      a = ⟨blockVal [y1, y2, y3, y4], blockVal [m1, m2], blockVal [d1, d2],
           blockVal [h1, h2], blockVal [n1, n2], blockVal [s1, s2]⟩ := by
  unfold strptimeTS at hc
  split at hc
  case _ y1 y2 y3 y4 m1 m2 d1 d2 h1 h2 n1 n2 s1 s2 =>
    split at hc
    case isTrue hdig =>
      simp only [] at hc
      split at hc
      case isTrue hrange =>
        refine ⟨y1, y2, y3, y4, m1, m2, d1, d2, h1, h2, n1, n2, s1, s2, rfl, hdig, ?_⟩
        exact (Option.some.inj hc).symm
      case isFalse => exact absurd hc (by simp)
    case isFalse => exact absurd hc (by simp)
  case _ => exact absurd hc (by simp)

/-- Chronological order of two parsed timestamps agrees with code-point
lexicographic order of their 19-character tokens. -/
theorem strptimeTS_mono (cs ds : List Char) (a b : PyDateTime)
    (hc : strptimeTS cs = some a) (hd : strptimeTS ds = some b) :
    lexLe (cs.map Char.toNat) (ds.map Char.toNat) = lexLe a.fields b.fields := by
  obtain ⟨y1, y2, y3, y4, m1, m2, d1, d2, h1, h2, n1, n2, s1, s2, rfl, hdig, rfl⟩ :=
    strptimeTS_shape cs a hc
  obtain ⟨z1, z2, z3, z4, p1, p2, e1, e2, g1, g2, q1, q2, t1, t2, rfl, hdig2, rfl⟩ :=
    strptimeTS_shape ds b hd
  simp only [Bool.and_eq_true] at hdig hdig2
  obtain ⟨⟨⟨⟨⟨⟨⟨⟨⟨⟨⟨⟨⟨hy1, hy2⟩, hy3⟩, hy4⟩, hm1⟩, hm2⟩, hd1⟩, hd2⟩,
    hh1⟩, hh2⟩, hn1⟩, hn2⟩, hs1⟩, hs2⟩ := hdig
  obtain ⟨⟨⟨⟨⟨⟨⟨⟨⟨⟨⟨⟨⟨hz1, hz2⟩, hz3⟩, hz4⟩, hp1⟩, hp2⟩, he1⟩, he2⟩,
    hg1⟩, hg2⟩, hq1⟩, hq2⟩, ht1⟩, ht2⟩ := hdig2
  simp only [List.map_cons, List.map_nil,
    show ('-').toNat = 45 from rfl, show ('_').toNat = 95 from rfl]
  rw [lexLe_digits4 y1 y2 y3 y4 z1 z2 z3 z4 _ _ hy1 hy2 hy3 hy4 hz1 hz2 hz3 hz4]
  rw [lexLe_cons_eq 45]
  rw [lexLe_digits2 m1 m2 p1 p2 _ _ hm1 hm2 hp1 hp2]
  rw [lexLe_cons_eq 45]
  rw [lexLe_digits2 d1 d2 e1 e2 _ _ hd1 hd2 he1 he2]
  rw [lexLe_cons_eq 95]
  rw [lexLe_digits2 h1 h2 g1 g2 _ _ hh1 hh2 hg1 hg2]
  rw [lexLe_cons_eq 45]
  rw [lexLe_digits2 n1 n2 q1 q2 _ _ hn1 hn2 hq1 hq2]
  rw [lexLe_cons_eq 45]
  rw [lexLe_digits2 s1 s2 t1 t2 _ _ hs1 hs2 ht1 ht2]
  simp only [PyDateTime.fields, lexLe]

/-! ### Python scalar parsing: `float(s)` and `int(s)` on strings. -/

/-- `float(s)` on a decimal literal: optional surrounding whitespace, optional
sign, digits with optional fractional part, optional exponent; at least one
mantissa digit.  The special values `nan`/`inf` lie outside the exact-rational
value domain of this model and are treated as unparseable. -/
def pyFloatCore (cs : List Char) : Option ℚ :=
  let sgn : ℚ × List Char :=
    if cs.head? = some '+' then (1, cs.tail)
    else if cs.head? = some '-' then (-1, cs.tail)
    else (1, cs)
  let ipart := sgn.2.span Char.isDigit
  let fpart : List Char × List Char :=
    if ipart.2.head? = some '.' then ipart.2.tail.span Char.isDigit
    else ([], ipart.2)
  let rest : List Char := if ipart.2.head? = some '.' then fpart.2 else ipart.2
  if ipart.1 = [] ∧ fpart.1 = [] then none
  else
    let mant : ℚ := (blockVal ipart.1 : ℚ) + (blockVal fpart.1 : ℚ) / 10 ^ fpart.1.length
    match rest with
    | [] => some (sgn.1 * mant)
    | e :: r =>
      if e = 'e' ∨ e = 'E' then
        let esgn : ℤ × List Char :=
          if r.head? = some '+' then (1, r.tail)
          else if r.head? = some '-' then (-1, r.tail)
          else (1, r)
        let epart := esgn.2.span Char.isDigit
        if epart.1 = [] ∨ epart.2 ≠ [] then none
        else some (sgn.1 * mant * (10 : ℚ) ^ (esgn.1 * (blockVal epart.1 : ℤ)))
      else none

/-- Strip leading and trailing whitespace (Python `str.strip()`). -/
def pyStrip (s : String) : String :=
  String.mk (((s.data.dropWhile Char.isWhitespace).reverse.dropWhile
    Char.isWhitespace).reverse)

def pyFloat (s : String) : Option ℚ :=
  let cs := (pyStrip s).data
  if cs = [] then none else pyFloatCore cs

/-- `int(s)`: optional surrounding whitespace, optional sign, one or more
digits and nothing else; otherwise `ValueError` (modelled as `none`). -/
def pyInt (s : String) : Option ℤ :=
  let cs := (pyStrip s).data
  let sgn : ℤ × List Char :=
    if cs.head? = some '+' then (1, cs.tail)
    else if cs.head? = some '-' then (-1, cs.tail)
    else (1, cs)
  let dpart := sgn.2.span Char.isDigit
  if dpart.1 = [] ∨ dpart.2 ≠ [] then none
  else some (sgn.1 * blockVal dpart.1)

/-- Python `str.lower()` (ASCII). -/
def pyLower (s : String) : String := String.mk (s.data.map Char.toLower)

/-! ### Files of a raw log tree. -/

/-- A regular file in a raw log tree: its path components relative to the
scanned folder (the last component is the file name) and, for CSV records, its
cell grid — the content split into rows at line breaks and into cells at
semicolons.  `pandas.read_csv(sep=';', header=None)` is modelled as returning
this grid; files used in concrete theorems have rectangular content, on which
this is exact. -/
structure PFile where
  parts : List String
  rows : List (List String)
deriving DecidableEq, Repr

def PFile.name (f : PFile) : String := (f.parts.getLast?).getD ""

/-- `fnmatch` of a glob pattern of the shape `*suffix` against a file name. -/
def matchStar (name pat : String) : Bool := pat.data.isSuffixOf name.data

/-! ### Extractor (`getCycleTime.py`, class CycleTimeExtractor). -/

/-- `find_cycle_files`: recursively collect files whose name matches
`*cycleTime.csv` (the `rglob` traversal order is the given file order). -/
def find_cycle_files (files : List PFile) : List PFile :=
  files.filter (fun f => matchStar f.name "cycleTime.csv")

/-- `extract_timestamp`: search the file NAME for the timestamp pattern and
parse the token with `strptime`; `None` on no match or invalid date. -/
def extract_timestamp (f : PFile) : Option PyDateTime :=
  (findTSToken f.name.data).bind strptimeTS

/-- Width of the read grid (`df.shape[1]`). -/
def gridShape1 (rows : List (List String)) : Nat :=
  (rows.map List.length).foldr max 0

/-- `extract_restore_time`: the cell at 0-based row 7, column 1 converted by
`float`, guarded by `df.shape[0] > 7 and df.shape[1] >= 1`; any failure
(short grid, missing cell, unparseable cell) yields `None`. -/
def extract_restore_time (f : PFile) : Option ℚ :=
  if f.rows.length > 7 ∧ gridShape1 f.rows ≥ 1 then
    match (f.rows.getD 7 []).get? 1 with
    | some cell => pyFloat cell
    | none => none
  else none

/-- One record the extractor keeps: the source file, its parsed timestamp and
its parsed duration value (the loop body of `process_workstation_folder`). -/
def ext_time_data (files : List PFile) : List (PFile × PyDateTime × ℚ) :=
  (find_cycle_files files).filterMap (fun f =>
    match extract_timestamp f, extract_restore_time f with
    | some t, some v => some (f, t, v)
    | _, _ => none)

def extRecLe (p q : PFile × PyDateTime × ℚ) : Prop := DtLe p.2.1 q.2.1

instance : DecidableRel extRecLe := fun p q => inferInstanceAs (Decidable (DtLe p.2.1 q.2.1))

instance : IsTotal (PFile × PyDateTime × ℚ) extRecLe where
  total := fun a b => IsTotal.total (r := DtLe) a.2.1 b.2.1

instance : IsTrans (PFile × PyDateTime × ℚ) extRecLe where
  trans := fun _ _ _ h1 h2 => IsTrans.trans (r := DtLe) _ _ _ h1 h2

/-- The extractor's records in chronological order (`time_data.sort(key=ts)`,
Python's stable sort).  Sample `k` (1-based) is the record at position `k-1`. -/
def ext_sorted (files : List PFile) : List (PFile × PyDateTime × ℚ) :=
  List.insertionSort extRecLe (ext_time_data files)

/-- `process_workstation_folder`: the sorted duration values
(with the workstation name as the single dictionary key). -/
def process_workstation_folder (files : List PFile) : List ℚ :=
  (ext_sorted files).map (fun r => r.2.2)

/-! ### Classifier (`sortCycletime.py`, class LogProcessor). -/

def FILE_PATTERNS : List String :=
  ["cycleTime.csv", "host.log", "device.log", "serial.log"]

/-- `find_log_files`: one `rglob` pass per pattern, results concatenated. -/
def find_log_files (files : List PFile) : List PFile :=
  FILE_PATTERNS.flatMap (fun pat => files.filter (fun f => matchStar f.name pat))

/-- Search the path components, last first, for a timestamp token. -/
def findTokenInParts : List String → String
  | [] => "unknown"
  | p :: ps =>
    match findTSToken p.data with
    | some tok => String.mk tok
    | none => findTokenInParts ps

/-- `extract_timestamp_identifier`: the timestamp match in the last path
component that has one, else the literal `"unknown"`. -/
def extract_timestamp_identifier (f : PFile) : String :=
  findTokenInParts f.parts.reverse

/-- `defaultdict(list)` grouping step: append `f` under key `k`, keeping key
insertion order. -/
def addToGroup : List (String × List PFile) → String → PFile → List (String × List PFile)
  | [], k, f => [(k, [f])]
  | (k', fs) :: rest, k, f =>
    if k' = k then (k', fs ++ [f]) :: rest
    else (k', fs) :: addToGroup rest k f

/-- `group_files_by_timestamp`. -/
def group_files_by_timestamp (files : List PFile) : List (String × List PFile) :=
  files.foldl (fun acc f => addToGroup acc (extract_timestamp_identifier f) f) []

/-- The classifier's timestamp keys in insertion order. -/
def classifierKeys (files : List PFile) : List String :=
  (group_files_by_timestamp (find_log_files files)).map Prod.fst

/-- `sorted(timestamp_groups.keys())`. -/
def sorted_timestamps (files : List PFile) : List String :=
  List.insertionSort StrLe (classifierKeys files)

/-- The 1-based chronological iteration index the classifier assigns to a
timestamp key (`enumerate(sorted_timestamps, start=1)`). -/
def classifierIndex (files : List PFile) (key : String) : Nat :=
  (sorted_timestamps files).indexOf key + 1

/-! ### Classifier side of the index store (`load_important_indices`). -/

/-- Split a character list at the first `:`. -/
def splitOnceColon (cs : List Char) : Option (List Char × List Char) :=
  let p := cs.span (fun c => c ≠ ':')
  if p.2.head? = some ':' then some (p.1, p.2.tail) else none

/-- Python `s.split(':', 2)`: at most two splits, the tail keeps any further
colons. -/
def pySplitColon2 (s : String) : List String :=
  match splitOnceColon s.data with
  | none => [s]
  | some (a, r1) =>
    match splitOnceColon r1 with
    | none => [String.mk a, String.mk r1]
    | some (b, r2) => [String.mk a, String.mk b, String.mk r2]

/-- Append a mark under an index key (`defaultdict(list)` inner level). -/
def addMarkIdx : List (ℤ × List String) → ℤ → String → List (ℤ × List String)
  | [], idx, m => [(idx, [m])]
  | (i, ms) :: rest, idx, m =>
    if i = idx then (i, ms ++ [m]) :: rest
    else (i, ms) :: addMarkIdx rest idx m

/-- The classifier's in-memory index mapping:
workstation name to index to list of marks, insertion-ordered. -/
abbrev ClassifierIdx : Type := List (String × List (ℤ × List String))

/-- Append a mark under a workstation and index (`defaultdict` outer level). -/
def addMark : ClassifierIdx → String → ℤ → String → ClassifierIdx
  | [], ws, idx, m => [(ws, addMarkIdx [] idx m)]
  | (w, entry) :: rest, ws, idx, m =>
    if w = ws then (w, addMarkIdx entry idx m) :: rest
    else (w, entry) :: addMark rest ws idx m

/-- One line of `load_important_indices`: strip, skip empty, split into at
most three colon-delimited fields, skip short lines, parse the index as an
integer and skip the line with a warning when that fails. -/
def limLine (d : ClassifierIdx) (line : String) : ClassifierIdx :=
  let l := pyStrip line
  if l = "" then d
  else
    let parts := pySplitColon2 l
    if parts.length < 3 then d
    else
      let ws := pyStrip (parts.getD 0 "")
      let mark := pyLower (pyStrip (parts.getD 1 ""))
      let value := pyStrip (parts.getD 2 "")
      match pyInt value with
      | some n => addMark d ws n mark
      | none => d

/-- `load_important_indices`: empty mapping when the store file does not
exist, otherwise a line-by-line fold. -/
def load_important_indices (fileExists : Bool) (lines : List String) : ClassifierIdx :=
  if fileExists then lines.foldl limLine [] else []

/-- `self.important_indices.get(workstation_name, {})`. -/
def lookupWS (d : ClassifierIdx) (ws : String) : List (ℤ × List String) :=
  ((d.find? (fun p => p.1 == ws)).map Prod.snd).getD []

/-- `index in important_marks` / `important_marks[index]`. -/
def marksOf (entry : List (ℤ × List String)) (idx : ℤ) : Option (List String) :=
  (entry.find? (fun p => p.1 == idx)).map Prod.snd

/-! ### Classifier file redistribution (`process_timestamp_group`). -/

/-- One `shutil.copy2` the classifier performs: source file, destination
subfolder of the workstation output root (`none` = the root itself) and
destination file name. -/
structure CopyOp where
  src : PFile
  destDir : Option String
  destName : String
deriving DecidableEq, Repr

/-- `f"{index:03d}"`: decimal, zero-padded to width 3. -/
def pad3 (n : Nat) : String :=
  let s := toString n
  String.mk (List.replicate (3 - s.length) '0') ++ s

/-- `Path.suffix`: the extension of the final component, empty unless the last
dot is strictly inside the name. -/
def pathSuffix (name : String) : String :=
  let idxs := (name.data.enum.filter (fun p => p.2 = '.')).map Prod.fst
  match idxs.getLast? with
  | some i =>
    if 0 < i ∧ i < name.data.length - 1 then String.mk (name.data.drop i) else ""
  | none => ""

/-- `format_folder_name`: marks sorted for a deterministic name, joined by
underscores between the padded index and the timestamp. -/
def format_folder_name (index : Nat) (marks : List String) (timestamp : String) : String :=
  pad3 index ++ "_" ++ String.intercalate "_" (List.insertionSort StrLe marks)
    ++ "_" ++ timestamp

/-- `process_timestamp_group`: for an important index, copy every file of the
group into the tagged subfolder and additionally copy cycle-time records flat
into the output root; otherwise copy only `.csv` files, renamed, into the
root. -/
def process_timestamp_group (group : List PFile) (timestamp : String) (index : Nat)
    (marks? : Option (List String)) : List CopyOp :=
  match marks? with
  | some marks =>
    let folder := format_folder_name index marks timestamp
    group.flatMap (fun f =>
      { src := f, destDir := some folder, destName := f.name } ::
      (if matchStar f.name "cycleTime.csv" then
        [{ src := f, destDir := none,
           destName := pad3 index ++ "_" ++ timestamp ++ "-cycleTime.csv" }]
       else []))
  | none =>
    (group.filter (fun f => pyLower (pathSuffix f.name) = ".csv")).map (fun f =>
      { src := f, destDir := none,
        destName := pad3 index ++ "_" ++ timestamp ++ "_" ++ f.name })

/-- The files grouped under a timestamp key. -/
def groupOf (files : List PFile) (key : String) : List PFile :=
  (((group_files_by_timestamp (find_log_files files)).find?
    (fun p => p.1 == key)).map Prod.snd).getD []

/-- `process_workstation_logs`: the classifier's full copy plan for one
workstation — groups in ascending key order, indexed from 1. -/
def process_workstation_logs (files : List PFile)
    (important : List (ℤ × List String)) : List CopyOp :=
  (sorted_timestamps files).enum.flatMap (fun p =>
    process_timestamp_group (groupOf files p.2) p.2 (p.1 + 1)
      (marksOf important (p.1 + 1 : ℕ)))

/-! ### Statistics engine (`boxPlot.py`, class BoxPlotGenerator). -/

def pySortQ (l : List ℚ) : List ℚ := List.insertionSort (· ≤ ·) l

def listMin (l : List ℚ) : ℚ :=
  match l with
  | [] => 0
  | x :: xs => xs.foldl min x

def listMax (l : List ℚ) : ℚ :=
  match l with
  | [] => 0
  | x :: xs => xs.foldl max x

/-- `numpy.percentile(data, p)` with the default linear interpolation:
position `(n-1)*p/100` into the sorted data, interpolating between the two
neighbouring order statistics. -/
def percentile (data : List ℚ) (p : ℚ) : ℚ :=
  let s := pySortQ data
  let pos : ℚ := ((s.length : ℚ) - 1) * p / 100
  let i : ℕ := (Rat.floor pos).toNat
  let lo := s.getD i 0
  let hi := s.getD (i + 1) lo
  lo + (pos - (i : ℚ)) * (hi - lo)

structure PyStats where
  mean : ℚ
  median : ℚ
  q1 : ℚ
  q3 : ℚ
  iqr : ℚ
  lower_bound : ℚ
  upper_bound : ℚ
  min : ℚ
  max : ℚ
deriving DecidableEq, Repr

/-- `calculate_statistics`: empty dictionary on empty data, else quartiles by
linear-interpolation percentile, `iqr = q3 - q1` and the 1.5-IQR fences
(`numpy.median` equals the 50th linear-interpolation percentile). -/
def calculate_statistics (data : List ℚ) : Option PyStats :=
  if data = [] then none
  else
    let q1 := percentile data 25
    let q3 := percentile data 75
    let iqr := q3 - q1
    some { mean := data.sum / (data.length : ℚ)
           median := percentile data 50
           q1 := q1
           q3 := q3
           iqr := iqr
           lower_bound := q1 - 3/2 * iqr
           upper_bound := q3 + 3/2 * iqr
           min := listMin data
           max := listMax data }

/-- Loop body of `find_extreme_indices` (boxPlot): 1-based enumeration,
collecting samples strictly outside the fences, in iteration order. -/
def feiAux : List ℚ → Nat → ℚ → ℚ → List (Nat × ℚ)
  | [], _, _, _ => []
  | v :: vs, i, lb, ub =>
    (if v < lb ∨ v > ub then [(i, v)] else []) ++ feiAux vs (i + 1) lb ub

/-- `find_extreme_indices` of boxPlot.py: the outlier `(index, value)` pairs. -/
def find_extreme_indices (data : List ℚ) (lb ub : ℚ) : List (Nat × ℚ) :=
  feiAux data 1 lb ub

/-- Loop body of `find_median_index`: scan with a strict `<` comparison, so
only a strictly smaller distance replaces the current best (`none` models the
initial `float('inf')`). -/
def fmiAux : List ℚ → ℚ → Nat → Nat → Option ℚ → Nat
  | [], _, _, best, _ => best
  | v :: vs, m, i, best, md =>
    let dv := |v - m|
    match md with
    | none => fmiAux vs m (i + 1) i (some dv)
    | some d0 =>
      if dv < d0 then fmiAux vs m (i + 1) i (some dv)
      else fmiAux vs m (i + 1) best (some d0)

/-- `find_median_index`: the 1-based index whose value is nearest the median,
first occurrence on ties. -/
def find_median_index (data : List ℚ) (medianValue : ℚ) : Nat :=
  fmiAux data medianValue 1 1 none

/-! ### Chart stage extremes and index-store writers
(`lineChart.py`, class RestoreTimeChartGenerator). -/

/-- 1-based enumeration of a series. -/
def enumFrom1 (l : List ℚ) : List (Nat × ℚ) :=
  l.enum.map (fun p => (p.1 + 1, p.2))

/-- `find_extreme_indices` of lineChart.py: ALL 1-based positions attaining
the minimum, and all attaining the maximum. -/
def lc_find_extreme_indices (ts : List ℚ) : List Nat × List Nat :=
  if ts = [] then ([], [])
  else
    (((enumFrom1 ts).filter (fun p => p.2 = listMin ts)).map Prod.fst,
     ((enumFrom1 ts).filter (fun p => p.2 = listMax ts)).map Prod.fst)

/-- `save_important_indices` of lineChart.py: append one `ws:min:i` line per
minimum index then one `ws:max:i` line per maximum index, unconditionally. -/
def lc_save_important_indices (fileLines : List String) (dataset : String)
    (minIdxs maxIdxs : List Nat) : List String :=
  fileLines ++ minIdxs.map (fun i => dataset ++ ":min:" ++ toString i)
            ++ maxIdxs.map (fun i => dataset ++ ":max:" ++ toString i)

/-- Writer state of boxPlot.py: the in-memory `saved_indices` set (modelled as
the list of keys added) and the lines appended to the store file. -/
structure BpState where
  saved : List String
  fileLines : List String
deriving DecidableEq, Repr

/-- Append a key to the store unless it was already saved by this process. -/
def bpAppendIfNew (st : BpState) (key : String) : BpState :=
  if key ∈ st.saved then st
  else { saved := st.saved ++ [key], fileLines := st.fileLines ++ [key] }

/-- `save_important_indices` of boxPlot.py: the median key, then one abnormal
key per outlier index, each appended only when not yet in `saved_indices`. -/
def bp_save_important_indices (st : BpState) (dataset : String)
    (medianIdx : Nat) (outlierIdxs : List Nat) : BpState :=
  let st1 := bpAppendIfNew st (dataset ++ ":median:" ++ toString medianIdx)
  outlierIdxs.foldl (fun s i => bpAppendIfNew s (dataset ++ ":abnormal:" ++ toString i)) st1

/-! ### Index-store events of one full-pipeline run (`main_controller.py`,
class ScriptRunnerThread, with the store writes of lineChart.py and
boxPlot.py). -/

/-- A mutation of the shared index store: `generate_charts`' truncation
(`open(index_path, "w").close()`) or one appended tag line. -/
inductive StoreEvent where
  | truncate : StoreEvent
  | tag (ws : String) (role : String) (idx : Nat) : StoreEvent
deriving DecidableEq, Repr

/-- Store mutations of `lineChart.generate_charts` for one workstation: the
truncation first, then the min and max tags of `create_chart` (none when the
extracted series is empty). -/
def lineChartEvents (ws : String) (data : List ℚ) : List StoreEvent :=
  StoreEvent.truncate ::
    (if data = [] then []
     else (lc_find_extreme_indices data).1.map (StoreEvent.tag ws "min")
       ++ (lc_find_extreme_indices data).2.map (StoreEvent.tag ws "max"))

/-- Store mutations of `boxPlot.generate_boxplots` for one workstation: the
median tag then the abnormal tags (its per-run `saved_indices` set starts
empty and these keys are pairwise distinct, so every key is appended). -/
def boxPlotEvents (ws : String) (data : List ℚ) : List StoreEvent :=
  match calculate_statistics data with
  | none => []
  | some st =>
    StoreEvent.tag ws "median" (find_median_index data st.median) ::
      (find_extreme_indices data st.lower_bound st.upper_bound).map
        (fun p => StoreEvent.tag ws "abnormal" p.1)

/-- All store mutations while the controller runs the five scripts for one
workstation: the extraction, classification and comparison scripts do not
write the store. -/
def workstationEvents (ws : String) (files : List PFile) : List StoreEvent :=
  let data := process_workstation_folder files
  lineChartEvents ws data ++ boxPlotEvents ws data

/-- Store mutations of a full-pipeline run: the controller iterates
workstations in the outer loop and the five scripts in the inner loop. -/
def pipelineEvents (wss : List (String × List PFile)) : List StoreEvent :=
  wss.flatMap (fun p => workstationEvents p.1 p.2)

/-- The tag lines a workstation's two writer stages append. -/
def wsTags (ws : String) (files : List PFile) : List (String × String × Nat) :=
  (workstationEvents ws files).filterMap (fun e =>
    match e with
    | StoreEvent.tag a b c => some (a, b, c)
    | StoreEvent.truncate => none)

/-- Replay one store event on the store's current line list. -/
def applyEvent (store : List (String × String × Nat)) : StoreEvent → List (String × String × Nat)
  | StoreEvent.truncate => []
  | StoreEvent.tag ws role idx => store ++ [(ws, role, idx)]

/-- The store content after replaying a list of events on an empty store. -/
def runStore (evs : List StoreEvent) : List (String × String × Nat) :=
  evs.foldl applyEvent []

/-! ### Comparator (`compare_min_max.py`, class CSVComparator). -/

/-- `get_ordinal_suffix`: `1st`, `2nd`, `3rd`, `4th`, with the teens (a last
two-digit part between 10 and 20) always taking `th`; a value that is not an
integer is returned unchanged. -/
def get_ordinal_suffix (number : String) : String :=
  match pyInt number with
  | none => number
  | some num =>
    let sfx :=
      if 10 ≤ num % 100 ∧ num % 100 ≤ 20 then "th"
      else if num % 10 = 1 then "st"
      else if num % 10 = 2 then "nd"
      else if num % 10 = 3 then "rd"
      else "th"
    toString num ++ sfx

/-- `drop_duplicates(subset=['Stage'], keep='last')`: keep each key's last
occurrence, in its original position. -/
def dedupKeepLast : List (String × Option ℚ) → List (String × Option ℚ)
  | [] => []
  | (k, v) :: rest =>
    if rest.any (fun p => p.1 == k) then dedupKeepLast rest
    else (k, v) :: dedupKeepLast rest

/-- `parse_file`: rows as `(stage, time)` with the first two cells, rows with
a missing or empty time cell dropped, remaining time cells coerced to numbers
(`none` = the `NaN` of a failed coercion), each stage's last record kept.
A missing file yields an empty series. -/
def parse_file (fileExists : Bool) (rows : List (List String)) : List (String × Option ℚ) :=
  if fileExists then
    dedupKeepLast ((rows.filterMap (fun r =>
      match r.get? 1 with
      | none => none
      | some t => if t = "" then none else some (r.getD 0 "", t))).map
        (fun p => (p.1, pyFloat p.2)))
  else []

/-- The comparator's parsed index mapping: workstation name to its `min`,
`max` and `abnormal` index lists, the index values kept as raw strings. -/
abbrev CompIdx : Type := List (String × (List String × List String × List String))

/-- Append a value under a workstation's role list. -/
def appendRole : CompIdx → String → String → String → CompIdx
  | [], _, _, _ => []
  | (w, (mins, maxs, abns)) :: rest, ws, key, v =>
    if w = ws then
      (w, if key = "min" then (mins ++ [v], maxs, abns)
          else if key = "max" then (mins, maxs ++ [v], abns)
          else (mins, maxs, abns ++ [v])) :: rest
    else (w, (mins, maxs, abns)) :: appendRole rest ws key v

/-- One line of `parse_index_file`: strip, skip empty, split into at most
three colon-delimited fields, skip short lines; the workstation entry is
created, and the value string is appended under a recognized role WITHOUT any
integer check. -/
def pifLine (d : CompIdx) (line : String) : CompIdx :=
  let l := pyStrip line
  if l = "" then d
  else
    let parts := pySplitColon2 l
    if parts.length < 3 then d
    else
      let ws := pyStrip (parts.getD 0 "")
      let key := pyLower (pyStrip (parts.getD 1 ""))
      let value := pyStrip (parts.getD 2 "")
      let d1 := if d.any (fun p => p.1 == ws) then d else d ++ [(ws, ([], [], []))]
      if key = "min" ∨ key = "max" ∨ key = "abnormal" then appendRole d1 ws key value
      else d1

/-- `parse_index_file`: empty mapping when the store file does not exist. -/
def parse_index_file (fileExists : Bool) (lines : List String) : CompIdx :=
  if fileExists then lines.foldl pifLine [] else []

/-- `fnmatch` for glob patterns built from literals and `*` (the only
metacharacter occurring in the comparator's patterns). -/
def globMatch : List Char → List Char → Bool
  | [], [] => true
  | [], _ :: _ => false
  | '*' :: ps, [] => globMatch ps []
  | '*' :: ps, c :: cs => globMatch ps (c :: cs) || globMatch ('*' :: ps) cs
  | _ :: _, [] => false
  | p :: ps, c :: cs => p = c && globMatch ps cs
termination_by pat s => (pat.length, s.length)

/-- `f"{n:03d}"` for a possibly negative integer (width 3 includes the sign). -/
def int03 (n : ℤ) : String :=
  if n < 0 then
    let s := toString n.natAbs
    "-" ++ String.mk (List.replicate (2 - s.length) '0') ++ s
  else pad3 n.toNat

/-- `find_cycle_file`: `int(index)` first — a `ValueError` on a non-integer
index string propagates (modelled as `Except.error`); otherwise glob the
workstation directory with `{index:03d}_*_*cycleTime.csv`, falling back to
`{index:03d}_*cycleTime.csv`, returning the first hit or `None`. -/
def find_cycle_file (index : String) (names : List String) : Except Unit (Option String) :=
  match pyInt index with
  | none => Except.error ()
  | some n =>
    let found1 := names.filter (fun nm => globMatch (int03 n ++ "_*_*cycleTime.csv").data nm.data)
    let found :=
      if found1 = [] then
        names.filter (fun nm => globMatch (int03 n ++ "_*cycleTime.csv").data nm.data)
      else found1
    Except.ok found.head?

def startsWithS (s pat : String) : Bool := pat.data.isPrefixOf s.data

/-- The comparator's column collection (`all_data`): max columns first, then
min columns, then the abnormal columns whose index is in neither list; an
index shared with `abnormal` renames the min/max column with an `_abnormal`
marker; empty parses contribute no column. -/
def buildAllData (minFiles maxFiles abnFiles : List (String × List (List String))) :
    List (String × List (String × Option ℚ)) :=
  let abnIdx := abnFiles.map Prod.fst
  let maxCols := maxFiles.filterMap (fun p =>
    let data := parse_file true p.2
    if data = [] then none
    else some ((if p.1 ∈ abnIdx then "Max_abnormal(" else "Max(")
      ++ get_ordinal_suffix p.1 ++ " loop)", data))
  let minCols := minFiles.filterMap (fun p =>
    let data := parse_file true p.2
    if data = [] then none
    else some ((if p.1 ∈ abnIdx then "Min_abnormal(" else "Min(")
      ++ get_ordinal_suffix p.1 ++ " loop)", data))
  let mmIdx := minFiles.map Prod.fst ++ maxFiles.map Prod.fst
  let abnCols := abnFiles.filterMap (fun p =>
    if p.1 ∈ mmIdx then none
    else
      let data := parse_file true p.2
      if data = [] then none
      else some ("Abnormal(" ++ get_ordinal_suffix p.1 ++ " loop)", data))
  maxCols ++ minCols ++ abnCols

def eraseDupsKeepFirst (l : List String) : List String :=
  l.foldl (fun acc s => if s ∈ acc then acc else acc ++ [s]) []

/-- The row index of `pd.DataFrame(all_data)`: the common index when every
series carries the same one, otherwise the sorted union. -/
def stageIndex (cols : List (String × List (String × Option ℚ))) : List String :=
  match cols with
  | [] => []
  | c :: rest =>
    let first := c.2.map Prod.fst
    if rest.all (fun c2 => c2.2.map Prod.fst = first) then first
    else List.insertionSort StrLe
      (eraseDupsKeepFirst ((c :: rest).flatMap (fun x => x.2.map Prod.fst)))

/-- Value of a series at a stage label (`NaN` — here `none` — when absent). -/
def seriesAt (s : List (String × Option ℚ)) (stage : String) : Option ℚ :=
  ((s.find? (fun p => p.1 == stage)).map Prod.snd).getD none

/-- Round half to even, as `numpy` does. -/
def roundHalfEven (q : ℚ) : ℤ :=
  let f := Rat.floor q
  let r := q - (f : ℚ)
  if r < 1/2 then f
  else if r > 1/2 then f + 1
  else if f % 2 = 0 then f else f + 1

/-- `Series.round(4)`: exact-rational model of rounding to 4 decimal places. -/
def round4 (q : ℚ) : ℚ := ((roundHalfEven (q * 10000) : ℤ) : ℚ) / 10000

/-- The emitted comparison table: the stage labels and the value columns in
insertion order, each aligned with the stage labels. -/
structure CompTable where
  stages : List String
  cols : List (String × List (Option ℚ))
deriving DecidableEq, Repr

def colVals (cols : List (String × List (Option ℚ))) (name : String) : List (Option ℚ) :=
  ((cols.find? (fun c => c.1 == name)).map Prod.snd).getD []

/-- One cell of the `Time_Difference(Max-Min)` column:
`(max - min).round(4)`, `NaN` (`none`) when either operand is `NaN`. -/
def deltaCell (a b : Option ℚ) : Option ℚ :=
  match a, b with
  | some x, some y => some (round4 (x - y))
  | _, _ => none

/-- The table's value columns before the delta column: each collected series
aligned with the joined stage index. -/
def ppBase (minFiles maxFiles abnFiles : List (String × List (List String))) :
    List (String × List (Option ℚ)) :=
  (buildAllData minFiles maxFiles abnFiles).map
    (fun c => (c.1, (stageIndex (buildAllData minFiles maxFiles abnFiles)).map
      (fun s => seriesAt c.2 s)))

/-- `min_cols`: the column names starting with `Min`, in insertion order. -/
def ppMinNames (minFiles maxFiles abnFiles : List (String × List (List String))) :
    List String :=
  ((buildAllData minFiles maxFiles abnFiles).map Prod.fst).filter
    (fun n => startsWithS n "Min")

/-- `max_cols`: the column names starting with `Max`, in insertion order. -/
def ppMaxNames (minFiles maxFiles abnFiles : List (String × List (List String))) :
    List String :=
  ((buildAllData minFiles maxFiles abnFiles).map Prod.fst).filter
    (fun n => startsWithS n "Max")

/-- The columns with the delta column appended when at least one `Min` and one
`Max` column exist, computed from the FIRST of each in insertion order. -/
def ppCols (minFiles maxFiles abnFiles : List (String × List (List String))) :
    List (String × List (Option ℚ)) :=
  let base := ppBase minFiles maxFiles abnFiles
  if ppMinNames minFiles maxFiles abnFiles ≠ [] ∧
     ppMaxNames minFiles maxFiles abnFiles ≠ [] then
    base ++ [("Time_Difference(Max-Min)",
      List.zipWith deltaCell
        (colVals base ((ppMaxNames minFiles maxFiles abnFiles).headD ""))
        (colVals base ((ppMinNames minFiles maxFiles abnFiles).headD "")))]
  else base

/-- `process_comparison`: assemble the columns over the joined stage index,
append the `Time_Difference(Max-Min)` column from the FIRST column whose name
starts with `Max` and the first starting with `Min` (insertion order) when
both exist, and drop a leading `Log Folder Path` row. -/
def process_comparison (minFiles maxFiles abnFiles : List (String × List (List String))) :
    CompTable :=
  let stages := stageIndex (buildAllData minFiles maxFiles abnFiles)
  let cols1 := ppCols minFiles maxFiles abnFiles
  match stages with
  | s :: rest =>
    if s = "Log Folder Path" then
      { stages := rest, cols := cols1.map (fun c => (c.1, c.2.drop 1)) }
    else { stages := stages, cols := cols1 }
  | [] => { stages := stages, cols := cols1 }

/-! ### General lemmas about the embedded operations. -/

theorem fmiAux_spec (vs : List ℚ) (m : ℚ) (i best : Nat) (d0 : ℚ) :
    (fmiAux vs m i best (some d0) = best ∧
       ∀ j, j < vs.length → d0 ≤ |vs.getD j 0 - m|) ∨
    (∃ k, k < vs.length ∧ fmiAux vs m i best (some d0) = i + k ∧
       |vs.getD k 0 - m| < d0 ∧
       (∀ j, j < vs.length → |vs.getD k 0 - m| ≤ |vs.getD j 0 - m|) ∧
       (∀ j, j < k → |vs.getD k 0 - m| < |vs.getD j 0 - m|)) := by
  induction vs generalizing i best d0 with
  | nil =>
    left
    exact ⟨rfl, by intro j hj; simp at hj⟩
  | cons v rest ih =>
    by_cases hdv : |v - m| < d0
    · have hstep : fmiAux (v :: rest) m i best (some d0)
          = fmiAux rest m (i + 1) i (some |v - m|) := by
        simp [fmiAux, hdv]
      rcases ih (i + 1) i |v - m| with ⟨heq, hall⟩ | ⟨k, hk, heq, hlt, hle, hstrict⟩
      · right
        refine ⟨0, by simp, ?_, ?_, ?_, ?_⟩
        · rw [hstep, heq]; omega
        · simpa using hdv
        · intro j hj
          cases j with
          | zero => simp
          | succ j =>
            simp only [List.getD_cons_succ, List.getD_cons_zero]
            exact hall j (by simpa using hj)
        · intro j hj; omega
      · right
        refine ⟨k + 1, by simpa using hk, ?_, ?_, ?_, ?_⟩
        · rw [hstep, heq]; omega
        · simpa [List.getD_cons_succ] using lt_trans hlt hdv
        · intro j hj
          cases j with
          | zero =>
            simp only [List.getD_cons_succ, List.getD_cons_zero]
            exact le_of_lt hlt
          | succ j =>
            simp only [List.getD_cons_succ]
            exact hle j (by simpa using hj)
        · intro j hj
          cases j with
          | zero =>
            simp only [List.getD_cons_succ, List.getD_cons_zero]
            exact hlt
          | succ j =>
            simp only [List.getD_cons_succ]
            exact hstrict j (by omega)
    · have hstep : fmiAux (v :: rest) m i best (some d0)
          = fmiAux rest m (i + 1) best (some d0) := by
        simp [fmiAux, hdv]
      rcases ih (i + 1) best d0 with ⟨heq, hall⟩ | ⟨k, hk, heq, hlt, hle, hstrict⟩
      · left
        refine ⟨by rw [hstep, heq], ?_⟩
        intro j hj
        cases j with
        | zero =>
          simp only [List.getD_cons_zero]
          exact le_of_not_lt hdv
        | succ j =>
          simp only [List.getD_cons_succ]
          exact hall j (by simpa using hj)
      · right
        refine ⟨k + 1, by simpa using hk, ?_, ?_, ?_, ?_⟩
        · rw [hstep, heq]; omega
        · simpa [List.getD_cons_succ] using hlt
        · intro j hj
          cases j with
          | zero =>
            simp only [List.getD_cons_succ, List.getD_cons_zero]
            exact le_of_lt (lt_of_lt_of_le hlt (le_of_not_lt hdv))
          | succ j =>
            simp only [List.getD_cons_succ]
            exact hle j (by simpa using hj)
        · intro j hj
          cases j with
          | zero =>
            simp only [List.getD_cons_succ, List.getD_cons_zero]
            exact lt_of_lt_of_le hlt (le_of_not_lt hdv)
          | succ j =>
            simp only [List.getD_cons_succ]
            exact hstrict j (by omega)

/-- `find_median_index` returns the 1-based position of the first value at the
minimum absolute distance to the reference value. -/
theorem find_median_index_spec (data : List ℚ) (m : ℚ) (h : data ≠ []) :
    1 ≤ find_median_index data m ∧
    find_median_index data m ≤ data.length ∧
    (∀ j, j < data.length →
      |data.getD (find_median_index data m - 1) 0 - m| ≤ |data.getD j 0 - m|) ∧
    (∀ j, j < find_median_index data m - 1 →
      |data.getD (find_median_index data m - 1) 0 - m| < |data.getD j 0 - m|) := by
  cases data with
  | nil => exact absurd rfl h
  | cons v rest =>
    have hstep : find_median_index (v :: rest) m = fmiAux rest m 2 1 (some |v - m|) := by
      simp [find_median_index, fmiAux]
    rcases fmiAux_spec rest m 2 1 |v - m| with ⟨heq, hall⟩ | ⟨k, hk, heq, hlt, hle, hstrict⟩
    · rw [hstep, heq]
      refine ⟨le_refl 1, by simp, ?_, ?_⟩
      · intro j hj
        cases j with
        | zero => simp
        | succ j =>
          simp only [List.getD_cons_succ, List.getD_cons_zero, Nat.sub_self]
          exact hall j (by simpa using hj)
      · intro j hj; omega
    · rw [hstep, heq]
      have hidx : 2 + k - 1 = k + 1 := by omega
      refine ⟨by omega, by simp; omega, ?_, ?_⟩
      · intro j hj
        rw [hidx]
        cases j with
        | zero =>
          simp only [List.getD_cons_succ, List.getD_cons_zero]
          exact le_of_lt hlt
        | succ j =>
          simp only [List.getD_cons_succ]
          exact hle j (by simpa using hj)
      · intro j hj
        rw [hidx]
        cases j with
        | zero =>
          simp only [List.getD_cons_succ, List.getD_cons_zero]
          exact hlt
        | succ j =>
          simp only [List.getD_cons_succ]
          exact hstrict j (by omega)

/-- Plain recursive 1-based-from-`k` enumeration, for reasoning. -/
def enumFromK (k : Nat) : List ℚ → List (Nat × ℚ)
  | [] => []
  | v :: vs => (k, v) :: enumFromK (k + 1) vs

theorem enumFrom_map_eq_enumFromK (l : List ℚ) (n k : Nat) :
    (List.enumFrom n l).map (fun p => (p.1 + k, p.2)) = enumFromK (n + k) l := by
  induction l generalizing n with
  | nil => simp [enumFromK]
  | cons v vs ih =>
    simp only [List.enumFrom, List.map_cons, enumFromK]
    refine congrArg _ ?_
    rw [ih (n + 1)]
    have : n + 1 + k = n + k + 1 := by omega
    rw [this]

theorem enumFrom1_eq (l : List ℚ) : enumFrom1 l = enumFromK 1 l := by
  have := enumFrom_map_eq_enumFromK l 0 1
  simpa [enumFrom1, List.enum] using this

theorem feiAux_eq_filter (vs : List ℚ) (i : Nat) (lb ub : ℚ) :
    feiAux vs i lb ub = (enumFromK i vs).filter (fun p => p.2 < lb ∨ p.2 > ub) := by
  induction vs generalizing i with
  | nil => simp [feiAux, enumFromK]
  | cons v rest ih =>
    simp only [feiAux, enumFromK, List.filter_cons, ih (i + 1)]
    by_cases hv : v < lb ∨ v > ub
    · simp [hv]
    · simp [hv]

/-- `find_extreme_indices` is exactly the filter of the 1-based enumeration
keeping samples strictly outside the fences, in iteration order. -/
theorem find_extreme_indices_eq_filter (data : List ℚ) (lb ub : ℚ) :
    find_extreme_indices data lb ub
      = (enumFrom1 data).filter (fun p => p.2 < lb ∨ p.2 > ub) := by
  rw [find_extreme_indices, feiAux_eq_filter, enumFrom1_eq]

theorem calculate_statistics_ne_nil {data : List ℚ} {st : PyStats}
    (h : calculate_statistics data = some st) : data ≠ [] := by
  intro he
  subst he
  simp [calculate_statistics] at h

theorem calculate_statistics_fields {data : List ℚ} {st : PyStats}
    (h : calculate_statistics data = some st) :
    st.q1 = percentile data 25 ∧ st.q3 = percentile data 75 ∧
    st.iqr = st.q3 - st.q1 ∧ st.median = percentile data 50 ∧
    st.lower_bound = st.q1 - 3/2 * st.iqr ∧
    st.upper_bound = st.q3 + 3/2 * st.iqr := by
  have hne := calculate_statistics_ne_nil h
  unfold calculate_statistics at h
  rw [if_neg hne] at h
  have := Option.some.inj h
  subst this
  simp

/-! ### Claim C5. -/

/-- C5: for every non-empty series (any series the statistics engine accepts),
`find_median_index` applied to the engine's median returns the 1-based
position of the value with the smallest absolute distance to that median, and
on ties the first occurrence wins (every earlier position is strictly farther
away); on `[5,1,3,3,9]` the median is `3` and the median index is `3`, not
`4`. -/
theorem claim_C5 (data : List ℚ) (st : PyStats)
    (h : calculate_statistics data = some st) :
    (1 ≤ find_median_index data st.median ∧
     find_median_index data st.median ≤ data.length ∧
     (∀ j, j < data.length →
       |data.getD (find_median_index data st.median - 1) 0 - st.median|
         ≤ |data.getD j 0 - st.median|) ∧
     (∀ j, j < find_median_index data st.median - 1 →
       |data.getD (find_median_index data st.median - 1) 0 - st.median|
         < |data.getD j 0 - st.median|)) ∧
    percentile [5, 1, 3, 3, 9] 50 = 3 ∧
    find_median_index [5, 1, 3, 3, 9] (percentile [5, 1, 3, 3, 9] 50) = 3 := by
  refine ⟨find_median_index_spec data st.median (calculate_statistics_ne_nil h), ?_, ?_⟩
  · norm_num [percentile, pySortQ, List.insertionSort, List.orderedInsert,
      Rat.floor, Int.toNat, List.getD]
  · have hm : percentile [5, 1, 3, 3, 9] 50 = 3 := by
      norm_num [percentile, pySortQ, List.insertionSort, List.orderedInsert,
        Rat.floor, Int.toNat, List.getD]
    rw [hm]
    norm_num [find_median_index, fmiAux]

/-- Witness for C5 at the concrete series `[5,1,3,3,9]`. -/
theorem claim_C5_witness :
    calculate_statistics [5, 1, 3, 3, 9]
      = some ⟨21/5, 3, 3, 5, 2, 0, 8, 1, 9⟩ ∧
    find_median_index [5, 1, 3, 3, 9] (percentile [5, 1, 3, 3, 9] 50) = 3 := by
  have hcalc : calculate_statistics [5, 1, 3, 3, 9]
      = some ⟨21/5, 3, 3, 5, 2, 0, 8, 1, 9⟩ := by
    simp only [calculate_statistics]
    rw [if_neg (by simp)]
    norm_num [percentile, pySortQ, List.insertionSort,
      List.orderedInsert, Rat.floor, Int.toNat, List.getD, listMin, listMax]
  exact ⟨hcalc, (claim_C5 [5, 1, 3, 3, 9] ⟨21/5, 3, 3, 5, 2, 0, 8, 1, 9⟩ hcalc).2.2⟩

/-! ### Claim C6. -/

/-- C6: for every non-empty series the engine computes `q1`/`q3` by
linear-interpolation percentile, `iqr = q3 - q1` and the 1.5-IQR fences, and
the reported outliers are exactly the `(iteration_index, value)` pairs
strictly outside the fences, in iteration order; on `[1,2,3,4,100]` this
yields `q1=2, q3=4, iqr=2, lower_bound=-1, upper_bound=7`,
outliers `[(5,100)]`, `median=3` and `median_index=3`. -/
theorem claim_C6 (data : List ℚ) (st : PyStats)
    (h : calculate_statistics data = some st) :
    (st.q1 = percentile data 25 ∧ st.q3 = percentile data 75 ∧
     st.iqr = st.q3 - st.q1 ∧ st.median = percentile data 50 ∧
     st.lower_bound = st.q1 - 3/2 * st.iqr ∧
     st.upper_bound = st.q3 + 3/2 * st.iqr ∧
     find_extreme_indices data st.lower_bound st.upper_bound
       = (enumFrom1 data).filter
           (fun p => p.2 < st.lower_bound ∨ p.2 > st.upper_bound)) ∧
    (calculate_statistics [1, 2, 3, 4, 100]
       = some ⟨22, 3, 2, 4, 2, -1, 7, 1, 100⟩ ∧
     find_extreme_indices [1, 2, 3, 4, 100] (-1) 7 = [(5, 100)] ∧
     find_median_index [1, 2, 3, 4, 100] 3 = 3) := by
  obtain ⟨h1, h2, h3, h4, h5, h6⟩ := calculate_statistics_fields h
  refine ⟨⟨h1, h2, h3, h4, h5, h6, find_extreme_indices_eq_filter _ _ _⟩, ?_, ?_, ?_⟩
  · simp only [calculate_statistics]
    rw [if_neg (by simp)]
    norm_num [percentile, pySortQ, List.insertionSort,
      List.orderedInsert, Rat.floor, Int.toNat, List.getD, listMin, listMax]
  · norm_num [find_extreme_indices, feiAux]
  · norm_num [find_median_index, fmiAux]

/-- Witness for C6 at the concrete series `[1,2,3,4,100]`. -/
theorem claim_C6_witness :
    calculate_statistics [1, 2, 3, 4, 100] = some ⟨22, 3, 2, 4, 2, -1, 7, 1, 100⟩ ∧
    find_extreme_indices [1, 2, 3, 4, 100] (-1) 7 = [(5, 100)] := by
  have hcalc : calculate_statistics [1, 2, 3, 4, 100]
      = some ⟨22, 3, 2, 4, 2, -1, 7, 1, 100⟩ := by
    simp only [calculate_statistics]
    rw [if_neg (by simp)]
    norm_num [percentile, pySortQ, List.insertionSort,
      List.orderedInsert, Rat.floor, Int.toNat, List.getD, listMin, listMax]
  exact ⟨hcalc, (claim_C6 [1, 2, 3, 4, 100] ⟨22, 3, 2, 4, 2, -1, 7, 1, 100⟩ hcalc).2.2.1⟩

/-! ### Claim C8. -/

/-- C8: a timestamp group whose index carries roles is copied wholesale into a
subfolder named `{index:03d}_{roles sorted and joined by _}_{timestamp}`, with
every cycle-time record additionally copied flat into the output root as
`{index:03d}_{timestamp}-cycleTime.csv`; a group without roles contributes
exactly the flat renamed copies `{index:03d}_{timestamp}_{name}` of its `.csv`
files. -/
theorem claim_C8 (group : List PFile) (ts : String) (idx : Nat) (marks : List String) :
    (∀ op : CopyOp,
      op ∈ process_timestamp_group group ts idx (some marks) ↔
        ((op.src ∈ group ∧
          op.destDir = some (pad3 idx ++ "_"
            ++ String.intercalate "_" (List.insertionSort StrLe marks) ++ "_" ++ ts) ∧
          op.destName = op.src.name) ∨
         (op.src ∈ group ∧ matchStar op.src.name "cycleTime.csv" = true ∧
          op.destDir = none ∧
          op.destName = pad3 idx ++ "_" ++ ts ++ "-cycleTime.csv"))) ∧
    (∀ op : CopyOp,
      op ∈ process_timestamp_group group ts idx none ↔
        (op.src ∈ group ∧ pyLower (pathSuffix op.src.name) = ".csv" ∧
         op.destDir = none ∧
         op.destName = pad3 idx ++ "_" ++ ts ++ "_" ++ op.src.name)) := by
  constructor
  · intro op
    constructor
    · intro hop
      simp only [process_timestamp_group, format_folder_name, List.mem_flatMap] at hop
      obtain ⟨f, hf, hmem⟩ := hop
      rcases List.mem_cons.mp hmem with rfl | hmem2
      · exact Or.inl ⟨hf, rfl, rfl⟩
      · by_cases hcy : matchStar f.name "cycleTime.csv"
        · rw [if_pos hcy] at hmem2
          rcases List.mem_singleton.mp hmem2 with rfl
          exact Or.inr ⟨hf, hcy, rfl, rfl⟩
        · rw [if_neg hcy] at hmem2
          exact absurd hmem2 (List.not_mem_nil op)
    · intro h
      simp only [process_timestamp_group, format_folder_name, List.mem_flatMap]
      rcases h with ⟨hsrc, hdir, hname⟩ | ⟨hsrc, hcy, hdir, hname⟩
      · refine ⟨op.src, hsrc, ?_⟩
        apply List.mem_cons.mpr
        left
        cases op with
        | mk s d n =>
          simp only at hdir hname
          simp [hdir, hname]
      · refine ⟨op.src, hsrc, ?_⟩
        apply List.mem_cons.mpr
        right
        rw [if_pos hcy]
        apply List.mem_singleton.mpr
        cases op with
        | mk s d n =>
          simp only at hdir hname
          simp [hdir, hname]
  · intro op
    constructor
    · intro hop
      simp only [process_timestamp_group, List.mem_map, List.mem_filter] at hop
      obtain ⟨f, ⟨hf, hcsv⟩, heq⟩ := hop
      subst heq
      refine ⟨hf, by simpa using hcsv, rfl, rfl⟩
    · intro ⟨hsrc, hcsv, hdir, hname⟩
      simp only [process_timestamp_group, List.mem_map, List.mem_filter]
      refine ⟨op.src, ⟨hsrc, by simpa using hcsv⟩, ?_⟩
      cases op with
      | mk s d n =>
        simp only at hdir hname
        simp [hdir, hname]

/-! ### Claim C9. -/

/-- The boxPlot writer run on a sequence of
`(dataset, median index, outlier indices)` calls, from a fresh state. -/
def runBpSaves (calls : List (String × Nat × List Nat)) : BpState :=
  calls.foldl (fun st c => bp_save_important_indices st c.1 c.2.1 c.2.2) ⟨[], []⟩

def BpInv (st : BpState) : Prop :=
  st.fileLines.Nodup ∧ ∀ l ∈ st.fileLines, l ∈ st.saved

theorem bpAppendIfNew_inv (st : BpState) (key : String) (h : BpInv st) :
    BpInv (bpAppendIfNew st key) := by
  unfold bpAppendIfNew
  by_cases hk : key ∈ st.saved
  · simpa [hk] using h
  · rw [if_neg hk]
    constructor
    · refine List.Nodup.append h.1 (List.nodup_singleton key) ?_
      intro x hx hx1
      rcases List.mem_singleton.mp hx1 with rfl
      exact hk (h.2 x hx)
    · intro l hl
      rcases List.mem_append.mp hl with hl | hl
      · exact List.mem_append_left _ (h.2 l hl)
      · exact List.mem_append_right _ hl

theorem foldl_preserve {α β : Type} (P : α → Prop) (step : α → β → α)
    (hstep : ∀ a b, P a → P (step a b)) :
    ∀ (l : List β) (a : α), P a → P (l.foldl step a) := by
  intro l
  induction l with
  | nil => intro a ha; exact ha
  | cons b bs ih => intro a ha; exact ih (step a b) (hstep a b ha)

theorem bp_save_inv (st : BpState) (ds : String) (mi : Nat) (oi : List Nat)
    (h : BpInv st) : BpInv (bp_save_important_indices st ds mi oi) := by
  unfold bp_save_important_indices
  exact foldl_preserve BpInv _ (fun a b ha => bpAppendIfNew_inv a _ ha) oi _
    (bpAppendIfNew_inv st _ h)

/-- C9: within one writer process, the boxPlot stage's median and abnormal
lines are deduplicated through the in-memory key set, so the appended store
lines are pairwise distinct after ANY sequence of save calls; the lineChart
stage appends one `min`/`max` line per computed index unconditionally — each
line's multiplicity grows by exactly its multiplicity among the new tags,
with no deduplication against existing content. -/
theorem claim_C9 :
    (∀ calls : List (String × Nat × List Nat), (runBpSaves calls).fileLines.Nodup) ∧
    (∀ (fileLines : List String) (ds : String) (mins maxs : List Nat) (l : String),
      (lc_save_important_indices fileLines ds mins maxs).count l
        = fileLines.count l
          + (mins.map (fun i => ds ++ ":min:" ++ toString i)).count l
          + (maxs.map (fun i => ds ++ ":max:" ++ toString i)).count l) := by
  constructor
  · intro calls
    have hinv : BpInv (runBpSaves calls) := by
      unfold runBpSaves
      exact foldl_preserve BpInv _
        (fun a b ha => bp_save_inv a b.1 b.2.1 b.2.2 ha) calls ⟨[], []⟩
        ⟨List.nodup_nil, fun l hl => absurd hl (List.not_mem_nil l)⟩
    exact hinv.1
  · intro fileLines ds mins maxs l
    unfold lc_save_important_indices
    rw [List.count_append, List.count_append]

/-! ### Grouping lemmas for the classifier. -/

def lookupG (l : List (String × List PFile)) (key : String) : List PFile :=
  ((l.find? (fun p => p.1 == key)).map Prod.snd).getD []

theorem lookupG_cons_eq (k : String) (fs : List PFile)
    (rest : List (String × List PFile)) :
    lookupG ((k, fs) :: rest) k = fs := by
  simp [lookupG, List.find?]

theorem lookupG_cons_ne (k' key : String) (fs : List PFile)
    (rest : List (String × List PFile)) (h : ¬ k' = key) :
    lookupG ((k', fs) :: rest) key = lookupG rest key := by
  have hb : (k' == key) = false := beq_eq_false_iff_ne.mpr h
  simp [lookupG, List.find?, hb]

theorem addToGroup_fst (acc : List (String × List PFile)) (k : String) (f : PFile) :
    (addToGroup acc k f).map Prod.fst
      = if k ∈ acc.map Prod.fst then acc.map Prod.fst else acc.map Prod.fst ++ [k] := by
  induction acc with
  | nil => simp [addToGroup]
  | cons e rest ih =>
    obtain ⟨k', fs⟩ := e
    by_cases hk : k' = k
    · subst hk
      simp [addToGroup]
    · have hk2 : ¬ k = k' := fun h => hk h.symm
      simp only [addToGroup, if_neg hk, List.map_cons, List.mem_cons, ih]
      by_cases hmem : k ∈ rest.map Prod.fst
      · simp [hmem, hk2]
      · simp [hmem, hk2]

theorem addToGroup_lookup (acc : List (String × List PFile)) (k : String) (f : PFile)
    (key : String) :
    lookupG (addToGroup acc k f) key
      = if key = k then lookupG acc key ++ [f] else lookupG acc key := by
  induction acc with
  | nil =>
    by_cases hk : key = k
    · subst hk
      simp [addToGroup, lookupG, List.find?]
    · have hk2 : ¬ k = key := fun h => hk h.symm
      rw [if_neg hk]
      show lookupG [(k, [f])] key = lookupG [] key
      rw [lookupG_cons_ne k key [f] [] hk2]
  | cons e rest ih =>
    obtain ⟨k', fs⟩ := e
    by_cases hk : k' = k
    · subst hk
      by_cases hkey : key = k'
      · subst hkey
        simp only [addToGroup, if_true]
        rw [lookupG_cons_eq, lookupG_cons_eq]
      · have hk2 : ¬ k' = key := fun h => hkey h.symm
        simp only [addToGroup, if_true]
        rw [if_neg hkey, lookupG_cons_ne _ _ _ _ hk2, lookupG_cons_ne _ _ _ _ hk2]
    · by_cases hkey : key = k'
      · subst hkey
        simp only [addToGroup]
        rw [if_neg hk, if_neg hk, lookupG_cons_eq, lookupG_cons_eq]
      · have hk2 : ¬ k' = key := fun h => hkey h.symm
        simp only [addToGroup]
        rw [if_neg hk, lookupG_cons_ne _ _ _ _ hk2, lookupG_cons_ne _ _ _ _ hk2, ih]

theorem fold_group_lookup (fs : List PFile) (acc : List (String × List PFile)) (key : String) :
    lookupG (fs.foldl (fun a f => addToGroup a (extract_timestamp_identifier f) f) acc) key
      = lookupG acc key
        ++ fs.filter (fun f => extract_timestamp_identifier f = key) := by
  induction fs generalizing acc with
  | nil => simp
  | cons f rest ih =>
    simp only [List.foldl_cons, List.filter_cons]
    rw [ih]
    by_cases hf : extract_timestamp_identifier f = key
    · rw [addToGroup_lookup, if_pos hf.symm]
      simp [hf, List.append_assoc]
    · rw [addToGroup_lookup, if_neg (fun h => hf h.symm)]
      simp [hf]

/-- Every timestamp group holds exactly the matched files carrying that
identifier, in traversal order. -/
theorem groupOf_eq_filter (files : List PFile) (key : String) :
    groupOf files key
      = (find_log_files files).filter
          (fun f => extract_timestamp_identifier f = key) := by
  have h := fold_group_lookup (find_log_files files) [] key
  simpa [groupOf, lookupG, group_files_by_timestamp, List.find?] using h

theorem fold_group_keys_nodup (fs : List PFile) (acc : List (String × List PFile))
    (h : (acc.map Prod.fst).Nodup) :
    ((fs.foldl (fun a f => addToGroup a (extract_timestamp_identifier f) f) acc).map
      Prod.fst).Nodup := by
  induction fs generalizing acc with
  | nil => exact h
  | cons f rest ih =>
    simp only [List.foldl_cons]
    apply ih
    rw [addToGroup_fst]
    by_cases hmem : extract_timestamp_identifier f ∈ acc.map Prod.fst
    · simpa [hmem] using h
    · rw [if_neg hmem]
      refine List.Nodup.append h (List.nodup_singleton _) ?_
      intro x hx hx1
      rcases List.mem_singleton.mp hx1 with rfl
      exact hmem hx

theorem classifierKeys_nodup (files : List PFile) : (classifierKeys files).Nodup := by
  unfold classifierKeys group_files_by_timestamp
  exact fold_group_keys_nodup _ [] (by simp)

theorem fold_group_keys_mem (fs : List PFile) (acc : List (String × List PFile))
    (key : String) :
    key ∈ ((fs.foldl (fun a f => addToGroup a (extract_timestamp_identifier f) f) acc).map
      Prod.fst)
      ↔ key ∈ acc.map Prod.fst ∨ ∃ f ∈ fs, extract_timestamp_identifier f = key := by
  induction fs generalizing acc with
  | nil => simp
  | cons f rest ih =>
    simp only [List.foldl_cons]
    rw [ih, addToGroup_fst]
    by_cases hmem : extract_timestamp_identifier f ∈ acc.map Prod.fst
    · rw [if_pos hmem]
      constructor
      · rintro (h | h)
        · exact Or.inl h
        · obtain ⟨g, hg, hid⟩ := h
          exact Or.inr ⟨g, List.mem_cons_of_mem _ hg, hid⟩
      · rintro (h | ⟨g, hg, hid⟩)
        · exact Or.inl h
        · rcases List.mem_cons.mp hg with rfl | hg2
          · exact Or.inl (hid ▸ hmem)
          · exact Or.inr ⟨g, hg2, hid⟩
    · rw [if_neg hmem]
      constructor
      · rintro (h | h)
        · rcases List.mem_append.mp h with h2 | h2
          · exact Or.inl h2
          · rcases List.mem_singleton.mp h2 with rfl
            exact Or.inr ⟨f, List.mem_cons_self f rest, rfl⟩
        · obtain ⟨g, hg, hid⟩ := h
          exact Or.inr ⟨g, List.mem_cons_of_mem _ hg, hid⟩
      · rintro (h | ⟨g, hg, hid⟩)
        · exact Or.inl (List.mem_append_left _ h)
        · rcases List.mem_cons.mp hg with rfl | hg2
          · exact Or.inl (List.mem_append_right _ (by simp [hid]))
          · exact Or.inr ⟨g, hg2, hid⟩

theorem classifierKeys_mem (files : List PFile) (key : String) :
    key ∈ classifierKeys files
      ↔ ∃ f ∈ find_log_files files, extract_timestamp_identifier f = key := by
  unfold classifierKeys group_files_by_timestamp
  have h := fold_group_keys_mem (find_log_files files) [] key
  simpa using h

/-! ### The `unknown` group sorts last. -/

theorem tsShape?_head {cs tok : List Char} (h : tsShape? cs = some tok) :
    ∃ c rest, tok = c :: rest ∧ c.isDigit = true := by
  unfold tsShape? at h
  split at h
  case _ =>
    split at h
    case isTrue hdig =>
      simp only [Bool.and_eq_true] at hdig
      exact ⟨_, _, (Option.some.inj h).symm, hdig.1.1.1.1.1.1.1.1.1.1.1.1.1⟩
    case isFalse => exact absurd h (by simp)
  case _ => exact absurd h (by simp)

theorem findTSToken_head {cs tok : List Char} (h : findTSToken cs = some tok) :
    ∃ c rest, tok = c :: rest ∧ c.isDigit = true := by
  induction cs with
  | nil => simp [findTSToken] at h
  | cons c cs ih =>
    unfold findTSToken at h
    cases hshape : tsShape? (c :: cs) with
    | some t =>
      rw [hshape] at h
      exact (Option.some.inj h) ▸ tsShape?_head hshape
    | none =>
      rw [hshape] at h
      exact ih h

theorem findTokenInParts_shape (ps : List String) :
    findTokenInParts ps = "unknown" ∨
    ∃ c rest, (findTokenInParts ps).data = c :: rest ∧ c.isDigit = true := by
  induction ps with
  | nil => exact Or.inl rfl
  | cons p rest ih =>
    unfold findTokenInParts
    cases htok : findTSToken p.data with
    | some tok =>
      right
      obtain ⟨c, r, rfl, hc⟩ := findTSToken_head htok
      exact ⟨c, r, rfl, hc⟩
    | none => exact ih

theorem findTokenInParts_unknown_iff (ps : List String) :
    findTokenInParts ps = "unknown" ↔ ∀ p ∈ ps, findTSToken p.data = none := by
  induction ps with
  | nil => simp [findTokenInParts]
  | cons p rest ih =>
    unfold findTokenInParts
    cases htok : findTSToken p.data with
    | some tok =>
      obtain ⟨c, r, htd, hc⟩ := findTSToken_head htok
      have hne2 : (String.mk tok) ≠ "unknown" := by
        intro he
        have hdd : (String.mk tok).data = "unknown".data := by rw [he]
        rw [htd] at hdd
        have hu : "unknown".data = 'u' :: "nknown".data := rfl
        rw [hu] at hdd
        injection hdd with hcu _
        have hb := digit_bounds c hc
        rw [hcu] at hb
        have h117 : ('u').toNat = 117 := rfl
        rw [h117] at hb
        omega
      constructor
      · intro he
        exact absurd he hne2
      · intro hall
        exact absurd (hall p (List.mem_cons_self p rest)) (by simp [htok])
    | none =>
      rw [ih]
      constructor
      · intro hall q hq
        rcases List.mem_cons.mp hq with rfl | hq2
        · exact htok
        · exact hall q hq2
      · intro hall q hq
        exact hall q (List.mem_cons_of_mem _ hq)

/-- A string beginning with a digit sorts strictly before `"unknown"`. -/
theorem digit_lt_unknown (s : String) (c : Char) (cs : List Char)
    (hs : s.data = c :: cs) (hc : c.isDigit = true) :
    StrLe s "unknown" ∧ ¬ StrLe "unknown" s := by
  have hb := digit_bounds c hc
  have hu : "unknown".data = 'u' :: "nknown".data := rfl
  constructor
  · show strLeB s "unknown" = true
    unfold strLeB
    rw [hs, hu]
    simp only [List.map_cons, lexLe]
    have h117 : ('u').toNat = 117 := rfl
    rw [h117]
    rw [if_pos (by omega)]
  · show ¬ strLeB "unknown" s = true
    unfold strLeB
    rw [hs, hu]
    simp only [List.map_cons, lexLe]
    have h117 : ('u').toNat = 117 := rfl
    rw [h117]
    rw [if_neg (by omega), if_pos (by omega)]
    simp

/-- In a list sorted by `StrLe`, an element strictly above all others is
last. -/
theorem sorted_max_getLast (l : List String) (hs : l.Pairwise StrLe) (u : String)
    (hu : u ∈ l) (hmax : ∀ x ∈ l, x ≠ u → ¬ StrLe u x) :
    l.getLast? = some u := by
  induction l with
  | nil => exact absurd hu (List.not_mem_nil u)
  | cons a t ih =>
    cases t with
    | nil =>
      rcases List.mem_singleton.mp hu with rfl
      rfl
    | cons b t2 =>
      rw [List.getLast?_cons_cons]
      have hpair := List.pairwise_cons.mp hs
      apply ih hpair.2
      · rcases List.mem_cons.mp hu with rfl | hu2
        · by_cases hab : b = u
          · subst hab; exact List.mem_cons_self b t2
          · exfalso
            have hle : StrLe u b := hpair.1 b (List.mem_cons_self b t2)
            exact hmax b (List.mem_cons_of_mem _ (List.mem_cons_self b t2)) hab hle
        · exact hu2
      · intro x hx hxu
        exact hmax x (List.mem_cons_of_mem _ hx) hxu

/-- C10 (implicit): every matched file without a timestamp token in any path
component keeps the literal identifier `"unknown"`; those files form the
single `"unknown"` group; that key sorts after every timestamp key, so it is
last and receives the highest 1-based index; and the classifier's copy plan
processes it under that index like any other group. -/
theorem claim_C10 (files : List PFile) (h : "unknown" ∈ classifierKeys files) :
    (∀ f ∈ find_log_files files,
      (extract_timestamp_identifier f = "unknown" ↔
        ∀ p ∈ f.parts, findTSToken p.data = none)) ∧
    groupOf files "unknown"
      = (find_log_files files).filter
          (fun f => extract_timestamp_identifier f = "unknown") ∧
    (sorted_timestamps files).getLast? = some "unknown" ∧
    classifierIndex files "unknown" = (sorted_timestamps files).length ∧
    (∀ important : List (ℤ × List String), ∃ pre,
      process_workstation_logs files important
        = pre ++ process_timestamp_group (groupOf files "unknown") "unknown"
            ((sorted_timestamps files).length)
            (marksOf important ((sorted_timestamps files).length : ℕ))) := by
  have hkeyshape : ∀ key ∈ sorted_timestamps files, key ≠ "unknown" →
      ¬ StrLe "unknown" key := by
    intro key hkey hne
    have hmem : key ∈ classifierKeys files := by
      have := (List.perm_insertionSort StrLe (classifierKeys files)).mem_iff.mp hkey
      exact this
    obtain ⟨f, _, hid⟩ := (classifierKeys_mem files key).mp hmem
    rcases findTokenInParts_shape f.parts.reverse with hunk | ⟨c, r, hdata, hc⟩
    · exact absurd (hid ▸ hunk : key = "unknown") hne
    · have : key.data = c :: r := by
        rw [← hid]; exact hdata
      exact (digit_lt_unknown key c r this hc).2
  have hsorted : (sorted_timestamps files).Pairwise StrLe :=
    List.sorted_insertionSort StrLe (classifierKeys files)
  have humem : "unknown" ∈ sorted_timestamps files :=
    (List.perm_insertionSort StrLe (classifierKeys files)).mem_iff.mpr h
  have hlast : (sorted_timestamps files).getLast? = some "unknown" :=
    sorted_max_getLast _ hsorted _ humem hkeyshape
  have hnodup : (sorted_timestamps files).Nodup :=
    (List.perm_insertionSort StrLe (classifierKeys files)).nodup_iff.mpr
      (classifierKeys_nodup files)
  have hne : sorted_timestamps files ≠ [] := by
    intro he
    rw [he] at humem
    exact absurd humem (List.not_mem_nil _)
  have hgl : (sorted_timestamps files).getLast hne = "unknown" := by
    have h1 := List.getLast?_eq_getLast (sorted_timestamps files) hne
    rw [hlast] at h1
    exact (Option.some.inj h1).symm
  have hsplit : (sorted_timestamps files).dropLast ++ ["unknown"]
      = sorted_timestamps files := by
    have h2 := List.dropLast_concat_getLast hne
    rwa [hgl] at h2
  have hnotmem : "unknown" ∉ (sorted_timestamps files).dropLast := by
    have hnd : ((sorted_timestamps files).dropLast ++ ["unknown"]).Nodup := by
      rw [hsplit]; exact hnodup
    intro hm
    rcases List.nodup_append.mp hnd with ⟨_, _, hdisj⟩
    exact hdisj hm (List.mem_singleton_self "unknown")
  have hlen : (sorted_timestamps files).length
      = (sorted_timestamps files).dropLast.length + 1 := by
    conv_lhs => rw [← hsplit]
    simp
  refine ⟨?_, groupOf_eq_filter files "unknown", hlast, ?_, ?_⟩
  · intro f _
    unfold extract_timestamp_identifier
    rw [findTokenInParts_unknown_iff]
    constructor
    · intro hall p hp
      exact hall p (List.mem_reverse.mpr hp)
    · intro hall p hp
      exact hall p (List.mem_reverse.mp hp)
  · simp only [classifierIndex]
    conv_lhs => rw [← hsplit]
    rw [List.indexOf_append_of_not_mem hnotmem, hlen]
    have h0 : (["unknown"] : List String).indexOf "unknown" = 0 := by
      simp [List.indexOf_cons_self]
    rw [h0]
  · intro important
    refine ⟨((sorted_timestamps files).dropLast.enum).flatMap (fun p =>
        process_timestamp_group (groupOf files p.2) p.2 (p.1 + 1)
          (marksOf important ((p.1 + 1 : ℕ) : ℤ))), ?_⟩
    unfold process_workstation_logs
    conv_lhs => rw [← hsplit]
    rw [List.enum_append, List.flatMap_append]
    congr 1
    rw [hlen]
    simp [List.enumFrom]

/-! ### Concrete example files. -/

/-- A well-formed cycle-time record: timestamped name, 8 rows, duration `5`
at 0-based row 7, column 1. -/
def exFileA : PFile :=
  { parts := ["2024-01-02_10-00-00-cycleTime.csv"],
    rows := [["r0"], ["r1"], ["r2"], ["r3"], ["r4"], ["r5"], ["r6"], ["x", "5"]] }

/-- A timestamped log-stream file (matched by the classifier only). -/
def exFileB : PFile :=
  { parts := ["logs", "2024-01-01_09-00-00-host.log"], rows := [] }

/-- A cycle-time record without any timestamp token. -/
def exFileBad : PFile :=
  { parts := ["nodate-cycleTime.csv"], rows := [] }

/-- A log-stream file without any timestamp token anywhere in its path. -/
def exFileNoTs : PFile :=
  { parts := ["plain-host.log"], rows := [] }

/-! ### Claim C7. -/

theorem length_filterMap_countP {α β : Type} (g : α → Option β) (l : List α) :
    (l.filterMap g).length = l.countP (fun a => (g a).isSome) := by
  induction l with
  | nil => rfl
  | cons a rest ih =>
    cases hg : g a with
    | some b => simp [List.filterMap_cons, hg, ih, List.countP_cons]
    | none => simp [List.filterMap_cons, hg, ih, List.countP_cons]

/-- C7: the extractor is total (dropping, never raising): its output keeps
exactly the matched files whose timestamp and duration cell both parse, the
kept records are in ascending timestamp order, and an empty folder or a folder
whose files all fail to parse yields an empty result rather than an error. -/
theorem claim_C7 (files : List PFile) :
    ((process_workstation_folder files).length
       = (find_cycle_files files).countP
           (fun f => (extract_timestamp f).isSome && (extract_restore_time f).isSome)) ∧
    ((ext_sorted files).map (fun r => r.2.1)).Pairwise DtLe ∧
    (find_cycle_files files = [] → process_workstation_folder files = []) ∧
    ((∀ f ∈ find_cycle_files files,
        extract_timestamp f = none ∨ extract_restore_time f = none)
      → process_workstation_folder files = []) := by
  refine ⟨?_, ?_, ?_, ?_⟩
  · unfold process_workstation_folder ext_sorted
    rw [List.length_map, (List.perm_insertionSort extRecLe _).length_eq]
    unfold ext_time_data
    rw [length_filterMap_countP]
    apply List.countP_congr
    intro f _
    cases ht : extract_timestamp f with
    | some t =>
      cases hv : extract_restore_time f with
      | some v => simp [ht, hv]
      | none => simp [ht, hv]
    | none => simp [ht]
  · have hs : (ext_sorted files).Pairwise extRecLe :=
      List.sorted_insertionSort extRecLe (ext_time_data files)
    exact List.Pairwise.map _ (fun a b hab => hab) hs
  · intro h
    unfold process_workstation_folder ext_sorted ext_time_data
    rw [h]
    rfl
  · intro h
    unfold process_workstation_folder ext_sorted
    have hnil : ext_time_data files = [] := by
      unfold ext_time_data
      rw [List.filterMap_eq_nil]
      intro f hf
      rcases h f hf with ht | hv
      · simp [ht]
      · cases ht2 : extract_timestamp f with
        | some t => simp [ht2, hv]
        | none => simp [ht2]
    rw [hnil]
    rfl

/-- Witness for C7: the folder holding only the timestamp-less record is
emptied out, with no error. -/
theorem claim_C7_witness :
    (∀ f ∈ find_cycle_files [exFileBad],
       extract_timestamp f = none ∨ extract_restore_time f = none) ∧
    process_workstation_folder [exFileBad] = [] := by
  refine ⟨by decide, (claim_C7 [exFileBad]).2.2.2 (by decide)⟩

/-- Witness for C10: a matched log file with no timestamp token lands in the
`"unknown"` group, which receives the highest index. -/
theorem claim_C10_witness :
    "unknown" ∈ classifierKeys [exFileNoTs] ∧
    classifierIndex [exFileNoTs] "unknown" = (sorted_timestamps [exFileNoTs]).length ∧
    (sorted_timestamps [exFileNoTs]).getLast? = some "unknown" := by
  have h : "unknown" ∈ classifierKeys [exFileNoTs] := by decide
  have hc := claim_C10 [exFileNoTs] h
  exact ⟨h, hc.2.2.2.1, hc.2.2.1⟩

/-! ### Evaluations of the scalar parsers on the literals used in concrete
theorems. -/

theorem pyFloat_lit5 : pyFloat "5" = some 5 := by
  have hs : (pyStrip "5").data = ['5'] := by
    simp +decide only [show ("5").data = ['5'] from rfl, pyStrip,
      List.dropWhile_cons, List.reverse_cons, List.reverse_nil, List.nil_append]
  have hspan : (['5'] : List Char).span Char.isDigit = (['5'], []) := by
    simp +decide only [List.span_eq_take_drop, List.takeWhile_cons,
      List.dropWhile_cons, List.takeWhile_nil, List.dropWhile_nil]
  simp only [pyFloat, hs]
  rw [if_neg (by simp)]
  simp +decide only [pyFloatCore, hspan, List.head?_cons, List.head?_nil,
    List.tail_cons, blockVal, if_true, if_false, ite_true, ite_false]
  norm_num [show ('5').toNat = 53 from rfl]

theorem pyFloat_lit10 : pyFloat "10" = some 10 := by
  have hs : (pyStrip "10").data = ['1', '0'] := by
    simp +decide only [show ("10").data = ['1', '0'] from rfl, pyStrip,
      List.dropWhile_cons, List.reverse_cons, List.reverse_nil, List.nil_append,
      List.cons_append]
  have hspan : (['1', '0'] : List Char).span Char.isDigit = (['1', '0'], []) := by
    simp +decide only [List.span_eq_take_drop, List.takeWhile_cons,
      List.dropWhile_cons, List.takeWhile_nil, List.dropWhile_nil]
  simp only [pyFloat, hs]
  rw [if_neg (by simp)]
  simp +decide only [pyFloatCore, hspan, List.head?_cons, List.head?_nil,
    List.tail_cons, blockVal, if_true, if_false, ite_true, ite_false]
  norm_num [show ('1').toNat = 49 from rfl, show ('0').toNat = 48 from rfl]

theorem pyFloat_lit20 : pyFloat "20" = some 20 := by
  have hs : (pyStrip "20").data = ['2', '0'] := by
    simp +decide only [show ("20").data = ['2', '0'] from rfl, pyStrip,
      List.dropWhile_cons, List.reverse_cons, List.reverse_nil, List.nil_append,
      List.cons_append]
  have hspan : (['2', '0'] : List Char).span Char.isDigit = (['2', '0'], []) := by
    simp +decide only [List.span_eq_take_drop, List.takeWhile_cons,
      List.dropWhile_cons, List.takeWhile_nil, List.dropWhile_nil]
  simp only [pyFloat, hs]
  rw [if_neg (by simp)]
  simp +decide only [pyFloatCore, hspan, List.head?_cons, List.head?_nil,
    List.tail_cons, blockVal, if_true, if_false, ite_true, ite_false]
  norm_num [show ('2').toNat = 50 from rfl, show ('0').toNat = 48 from rfl]

theorem pyFloat_lit10p0 : pyFloat "10.0" = some 10 := by
  have hs : (pyStrip "10.0").data = ['1', '0', '.', '0'] := by
    simp +decide only [show ("10.0").data = ['1', '0', '.', '0'] from rfl, pyStrip,
      List.dropWhile_cons, List.reverse_cons, List.reverse_nil, List.nil_append,
      List.cons_append]
  have hspan1 : (['1', '0', '.', '0'] : List Char).span Char.isDigit
      = (['1', '0'], ['.', '0']) := by
    simp +decide only [List.span_eq_take_drop, List.takeWhile_cons,
      List.dropWhile_cons, List.takeWhile_nil, List.dropWhile_nil]
  have hspan2 : (['0'] : List Char).span Char.isDigit = (['0'], []) := by
    simp +decide only [List.span_eq_take_drop, List.takeWhile_cons,
      List.dropWhile_cons, List.takeWhile_nil, List.dropWhile_nil]
  simp only [pyFloat, hs]
  rw [if_neg (by simp)]
  simp +decide only [pyFloatCore, hspan1, hspan2, List.head?_cons, List.head?_nil,
    List.tail_cons, blockVal, if_true, if_false, ite_true, ite_false]
  norm_num [show ('1').toNat = 49 from rfl, show ('0').toNat = 48 from rfl]

theorem pyFloat_lit11p2345 : pyFloat "11.2345" = some 11.2345 := by
  have hs : (pyStrip "11.2345").data = ['1', '1', '.', '2', '3', '4', '5'] := by
    simp +decide only
      [show ("11.2345").data = ['1', '1', '.', '2', '3', '4', '5'] from rfl, pyStrip,
      List.dropWhile_cons, List.reverse_cons, List.reverse_nil, List.nil_append,
      List.cons_append]
  have hspan1 : (['1', '1', '.', '2', '3', '4', '5'] : List Char).span Char.isDigit
      = (['1', '1'], ['.', '2', '3', '4', '5']) := by
    simp +decide only [List.span_eq_take_drop, List.takeWhile_cons,
      List.dropWhile_cons, List.takeWhile_nil, List.dropWhile_nil]
  have hspan2 : (['2', '3', '4', '5'] : List Char).span Char.isDigit
      = (['2', '3', '4', '5'], []) := by
    simp +decide only [List.span_eq_take_drop, List.takeWhile_cons,
      List.dropWhile_cons, List.takeWhile_nil, List.dropWhile_nil]
  simp only [pyFloat, hs]
  rw [if_neg (by simp)]
  simp +decide only [pyFloatCore, hspan1, hspan2, List.head?_cons, List.head?_nil,
    List.tail_cons, blockVal, if_true, if_false, ite_true, ite_false]
  norm_num [show ('1').toNat = 49 from rfl, show ('2').toNat = 50 from rfl,
    show ('3').toNat = 51 from rfl, show ('4').toNat = 52 from rfl,
    show ('5').toNat = 53 from rfl]

theorem pyInt_lit1 : pyInt "1" = some 1 := by
  have hs : (pyStrip "1").data = ['1'] := by
    simp +decide only [show ("1").data = ['1'] from rfl, pyStrip,
      List.dropWhile_cons, List.reverse_cons, List.reverse_nil, List.nil_append]
  have hspan : (['1'] : List Char).span Char.isDigit = (['1'], []) := by
    simp +decide only [List.span_eq_take_drop, List.takeWhile_cons,
      List.dropWhile_cons, List.takeWhile_nil, List.dropWhile_nil]
  simp +decide only [pyInt, hs, hspan, List.head?_cons, List.head?_nil,
    List.tail_cons, blockVal, if_true, if_false, ite_true, ite_false]
  try norm_num [show ('1').toNat = 49 from rfl]

theorem pyInt_lit2 : pyInt "2" = some 2 := by
  have hs : (pyStrip "2").data = ['2'] := by
    simp +decide only [show ("2").data = ['2'] from rfl, pyStrip,
      List.dropWhile_cons, List.reverse_cons, List.reverse_nil, List.nil_append]
  have hspan : (['2'] : List Char).span Char.isDigit = (['2'], []) := by
    simp +decide only [List.span_eq_take_drop, List.takeWhile_cons,
      List.dropWhile_cons, List.takeWhile_nil, List.dropWhile_nil]
  simp +decide only [pyInt, hs, hspan, List.head?_cons, List.head?_nil,
    List.tail_cons, blockVal, if_true, if_false, ite_true, ite_false]
  try norm_num [show ('2').toNat = 50 from rfl]

theorem pyInt_lit12 : pyInt "12" = some 12 := by
  have hs : (pyStrip "12").data = ['1', '2'] := by
    simp +decide only [show ("12").data = ['1', '2'] from rfl, pyStrip,
      List.dropWhile_cons, List.reverse_cons, List.reverse_nil, List.nil_append,
      List.cons_append]
  have hspan : (['1', '2'] : List Char).span Char.isDigit = (['1', '2'], []) := by
    simp +decide only [List.span_eq_take_drop, List.takeWhile_cons,
      List.dropWhile_cons, List.takeWhile_nil, List.dropWhile_nil]
  simp +decide only [pyInt, hs, hspan, List.head?_cons, List.head?_nil,
    List.tail_cons, blockVal, if_true, if_false, ite_true, ite_false]
  try norm_num [show ('1').toNat = 49 from rfl, show ('2').toNat = 50 from rfl]

/-! ### Claim C2. -/

/-- Counterexample to C2: the Comparator's `parse_index_file` does NOT skip a
line whose index field is not an integer — it keeps the raw string `"abc"` in
the role list — and the subsequent per-index lookup `find_cycle_file` raises
`ValueError` on it instead of skipping; the Classifier's loader, by contrast,
does skip the line. -/
theorem claim_C2_counterexample :
    parse_index_file true ["WS-1:min:abc"] = [("WS-1", (["abc"], [], []))] ∧
    find_cycle_file "abc" ["001_min_2024-01-01_00-00-00-cycleTime.csv"]
      = Except.error () ∧
    load_important_indices true ["WS-1:min:abc"] = [] := by
  refine ⟨by decide, ?_, by decide⟩
  have hp : pyInt "abc" = none := by decide
  simp [find_cycle_file, hp]

/-- A store line the Classifier's loader does not skip: non-blank, at least
three colon-delimited fields, integer index field. -/
def limWellFormed (line : String) : Bool :=
  !(pyStrip line == "") && decide (3 ≤ (pySplitColon2 (pyStrip line)).length) &&
    (pyInt (pyStrip ((pySplitColon2 (pyStrip line)).getD 2 ""))).isSome

/-- A store line the Comparator's parser does not skip: non-blank and at
least three colon-delimited fields — no integer check. -/
def pifWellFormed (line : String) : Bool :=
  !(pyStrip line == "") && decide (3 ≤ (pySplitColon2 (pyStrip line)).length)

theorem limLine_skip (d : ClassifierIdx) (line : String)
    (h : limWellFormed line = false) : limLine d line = d := by
  unfold limWellFormed at h
  unfold limLine
  by_cases h1 : pyStrip line = ""
  · rw [if_pos h1]
  · rw [if_neg h1]
    by_cases h2 : (pySplitColon2 (pyStrip line)).length < 3
    · rw [if_pos h2]
    · cases hp : pyInt (pyStrip ((pySplitColon2 (pyStrip line)).getD 2 "")) with
      | some n =>
        exfalso
        rw [Bool.and_eq_false_iff, Bool.and_eq_false_iff] at h
        rcases h with (h3 | h3) | h3
        · exact h1 (by simpa using h3)
        · rw [decide_eq_false_iff_not] at h3
          exact h3 (Nat.le_of_not_lt h2)
        · rw [hp] at h3
          simp at h3
      | none =>
        rw [if_neg h2]
        simp only [hp]

theorem pifLine_skip (d : CompIdx) (line : String)
    (h : pifWellFormed line = false) : pifLine d line = d := by
  unfold pifWellFormed at h
  unfold pifLine
  by_cases h1 : pyStrip line = ""
  · rw [if_pos h1]
  · rw [if_neg h1]
    by_cases h2 : (pySplitColon2 (pyStrip line)).length < 3
    · rw [if_pos h2]
    · exfalso
      rw [Bool.and_eq_false_iff] at h
      rcases h with h3 | h3
      · exact h1 (by simpa using h3)
      · rw [decide_eq_false_iff_not] at h3
        exact h3 (Nat.le_of_not_lt h2)

theorem foldl_filter_skip {α β : Type} (step : α → β → α) (keep : β → Bool)
    (hskip : ∀ d x, keep x = false → step d x = d) :
    ∀ (l : List β) (init : α), l.foldl step init = (l.filter keep).foldl step init := by
  intro l
  induction l with
  | nil => intro init; rfl
  | cons x rest ih =>
    intro init
    cases hx : keep x with
    | true => simp [List.filter_cons, hx, ih]
    | false => simp [List.filter_cons, hx, hskip init x hx, ih]

/-- C2 as amended: a missing store file yields an empty mapping in both
readers; removing the lines the Classifier's loader skips (blank, fewer than
three fields, non-integer index) does not change its result, and removing the
lines the Comparator's parser skips (blank, fewer than three fields — the
index field is NOT validated) does not change its result; the Comparator's
per-index lookup raises `ValueError` exactly on a non-integer index field
instead of skipping it. -/
theorem claim_C2_amended (lines : List String) (index : String) (names : List String) :
    load_important_indices false lines = [] ∧
    parse_index_file false lines = [] ∧
    load_important_indices true lines
      = load_important_indices true (lines.filter limWellFormed) ∧
    parse_index_file true lines
      = parse_index_file true (lines.filter pifWellFormed) ∧
    ((∃ e, find_cycle_file index names = Except.error e) ↔ pyInt index = none) := by
  refine ⟨rfl, rfl, ?_, ?_, ?_⟩
  · unfold load_important_indices
    rw [if_pos rfl, if_pos rfl]
    exact foldl_filter_skip limLine limWellFormed limLine_skip lines []
  · unfold parse_index_file
    rw [if_pos rfl, if_pos rfl]
    exact foldl_filter_skip pifLine pifWellFormed pifLine_skip lines []
  · cases hp : pyInt index with
    | some n => simp [find_cycle_file, hp]
    | none => simp [find_cycle_file, hp]

/-! ### Claim C3. -/

def tagOf : StoreEvent → Option (String × String × Nat)
  | StoreEvent.truncate => none
  | StoreEvent.tag a b c => some (a, b, c)

def mkTag (t : String × String × Nat) : StoreEvent := StoreEvent.tag t.1 t.2.1 t.2.2

theorem tags_roundtrip (evs : List StoreEvent) (h : StoreEvent.truncate ∉ evs) :
    (evs.filterMap tagOf).map mkTag = evs := by
  induction evs with
  | nil => rfl
  | cons e rest ih =>
    cases e with
    | truncate => exact absurd (List.mem_cons_self _ _) h
    | tag a b c =>
      simp only [List.filterMap_cons, tagOf, List.map_cons, mkTag]
      exact congrArg _ (ih (fun hm => h (List.mem_cons_of_mem _ hm)))

theorem truncate_not_mem_lineChart_tags (ws : String) (data : List ℚ) :
    StoreEvent.truncate ∉
      (if data = [] then []
       else (lc_find_extreme_indices data).1.map (StoreEvent.tag ws "min")
         ++ (lc_find_extreme_indices data).2.map (StoreEvent.tag ws "max")) := by
  by_cases hd : data = []
  · simp [hd]
  · simp [hd]

theorem truncate_not_mem_boxPlot (ws : String) (data : List ℚ) :
    StoreEvent.truncate ∉ boxPlotEvents ws data := by
  unfold boxPlotEvents
  cases calculate_statistics data with
  | none => simp
  | some st => simp

/-- Each workstation's store-event block is its truncation followed by its
own tag appends. -/
theorem workstationEvents_shape (ws : String) (files : List PFile) :
    workstationEvents ws files
      = StoreEvent.truncate :: (wsTags ws files).map mkTag := by
  have htail : StoreEvent.truncate ∉ (workstationEvents ws files).tail := by
    unfold workstationEvents lineChartEvents
    simp only [List.cons_append, List.tail_cons]
    intro hm
    rcases List.mem_append.mp hm with hm1 | hm1
    · exact truncate_not_mem_lineChart_tags ws _ hm1
    · exact truncate_not_mem_boxPlot ws _ hm1
  have hshape : workstationEvents ws files
      = StoreEvent.truncate :: (workstationEvents ws files).tail := by
    unfold workstationEvents lineChartEvents
    simp
  conv_lhs => rw [hshape]
  refine congrArg _ ?_
  have : wsTags ws files = (workstationEvents ws files).tail.filterMap tagOf := by
    unfold wsTags
    conv_lhs => rw [hshape]
    simp only [List.filterMap_cons, tagOf]
    apply List.filterMap_congr
    intro e _
    cases e <;> rfl
  rw [this, tags_roundtrip _ htail]

theorem foldl_applyEvent_tags (init : List (String × String × Nat))
    (tags : List (String × String × Nat)) :
    (tags.map mkTag).foldl applyEvent init = init ++ tags := by
  induction tags generalizing init with
  | nil => simp
  | cons t rest ih =>
    simp only [List.map_cons, List.foldl_cons, mkTag, applyEvent, ih]
    simp

theorem foldl_applyEvent_ws (init : List (String × String × Nat))
    (ws : String) (files : List PFile) :
    (workstationEvents ws files).foldl applyEvent init = wsTags ws files := by
  rw [workstationEvents_shape, List.foldl_cons]
  show ((wsTags ws files).map mkTag).foldl applyEvent [] = wsTags ws files
  rw [foldl_applyEvent_tags]
  simp

theorem count_truncate_ws (ws : String) (files : List PFile) :
    (workstationEvents ws files).count StoreEvent.truncate = 1 := by
  rw [workstationEvents_shape, List.count_cons_self]
  have : ((wsTags ws files).map mkTag).count StoreEvent.truncate = 0 := by
    rw [List.count_eq_zero]
    intro hm
    rcases List.mem_map.mp hm with ⟨t, _, ht⟩
    exact absurd ht.symm (by simp [mkTag])
  rw [this]

theorem pipeline_foldl (wss : List (String × List PFile)) (hne : wss ≠ [])
    (init : List (String × String × Nat)) :
    (pipelineEvents wss).foldl applyEvent init
      = match wss.getLast? with
        | none => []
        | some p => wsTags p.1 p.2 := by
  induction wss generalizing init with
  | nil => exact absurd rfl hne
  | cons p rest ih =>
    unfold pipelineEvents
    simp only [List.flatMap_cons, List.foldl_append]
    cases rest with
    | nil =>
      simp only [List.flatMap_nil, List.foldl_nil]
      rw [foldl_applyEvent_ws]
      rfl
    | cons q rest2 =>
      have := ih (by simp) ((workstationEvents p.1 p.2).foldl applyEvent init)
      unfold pipelineEvents at this
      rw [this]
      rw [List.getLast?_cons_cons]

/-- C3 as amended: a full-pipeline run truncates the index store once per
WORKSTATION (at the start of each workstation's charting stage, before that
workstation's appends), not once per run; consequently the store ends the run
holding only the LAST workstation's tags — an earlier workstation's tags are
erased by the next workstation's charting pass. -/
theorem claim_C3_amended (wss : List (String × List PFile)) :
    ((pipelineEvents wss).count StoreEvent.truncate = wss.length) ∧
    (∀ p ∈ wss, workstationEvents p.1 p.2
        = StoreEvent.truncate :: (wsTags p.1 p.2).map mkTag) ∧
    (runStore (pipelineEvents wss)
      = match wss.getLast? with
        | none => []
        | some p => wsTags p.1 p.2) := by
  refine ⟨?_, fun p _ => workstationEvents_shape p.1 p.2, ?_⟩
  · induction wss with
    | nil => rfl
    | cons p rest ih =>
      unfold pipelineEvents
      simp only [List.flatMap_cons, List.count_append]
      unfold pipelineEvents at ih
      rw [count_truncate_ws, ih]
      simp [Nat.add_comm]
  · cases hw : wss with
    | nil => rfl
    | cons p rest =>
      unfold runStore
      rw [pipeline_foldl (p :: rest) (by simp) []]

theorem extract_restore_time_exA : extract_restore_time exFileA = some 5 := by
  unfold extract_restore_time
  rw [if_pos (by decide)]
  have hc : ((exFileA.rows.getD 7 []).get? 1) = some "5" := by decide
  rw [hc]
  exact pyFloat_lit5

theorem pwf_exA : process_workstation_folder [exFileA] = [5] := by
  have hfc : find_cycle_files [exFileA] = [exFileA] := by decide
  have het : extract_timestamp exFileA = some ⟨2024, 1, 2, 10, 0, 0⟩ := by decide
  unfold process_workstation_folder ext_sorted ext_time_data
  rw [hfc]
  simp only [List.filterMap_cons, List.filterMap_nil, het, extract_restore_time_exA]
  simp [List.insertionSort, List.orderedInsert]

theorem wsEvents_exA (ws : String) :
    workstationEvents ws [exFileA]
      = [StoreEvent.truncate, StoreEvent.tag ws "min" 1, StoreEvent.tag ws "max" 1,
         StoreEvent.tag ws "median" 1] := by
  unfold workstationEvents
  rw [pwf_exA]
  have hlc : lineChartEvents ws [5]
      = [StoreEvent.truncate, StoreEvent.tag ws "min" 1, StoreEvent.tag ws "max" 1] := by
    unfold lineChartEvents lc_find_extreme_indices
    rw [if_neg (by simp), if_neg (by simp)]
    simp [enumFrom1_eq, enumFromK, listMin, listMax]
  have hstats : calculate_statistics [5] = some ⟨5, 5, 5, 5, 0, 5, 5, 5, 5⟩ := by
    simp only [calculate_statistics]
    rw [if_neg (by simp)]
    norm_num [percentile, pySortQ, List.insertionSort, List.orderedInsert, Rat.floor,
      Int.toNat, List.getD, listMin, listMax]
  have hbp : boxPlotEvents ws [5] = [StoreEvent.tag ws "median" 1] := by
    unfold boxPlotEvents
    rw [hstats]
    simp [find_median_index, fmiAux, find_extreme_indices, feiAux]
  show lineChartEvents ws [5] ++ boxPlotEvents ws [5] = _
  rw [hlc, hbp]
  rfl

/-- Counterexample to C3: with two configured workstations, the controller's
workstation-outer/script-inner loop runs the charting stage — and its store
truncation — once per workstation, so the store is truncated twice, the
second truncation arrives after the first workstation's appends, and the
first workstation's tags (here its `min` tag) are missing from the final
store even though its writer stage appended them. -/
theorem claim_C3_counterexample :
    (pipelineEvents [("WS-1", [exFileA]), ("WS-2", [exFileA])]).count
        StoreEvent.truncate = 2 ∧
    runStore (pipelineEvents [("WS-1", [exFileA]), ("WS-2", [exFileA])])
      = [("WS-2", "min", 1), ("WS-2", "max", 1), ("WS-2", "median", 1)] ∧
    ("WS-1", "min", 1) ∈ wsTags "WS-1" [exFileA] ∧
    ("WS-1", "min", 1) ∉
      runStore (pipelineEvents [("WS-1", [exFileA]), ("WS-2", [exFileA])]) := by
  have h1 : pipelineEvents [("WS-1", [exFileA]), ("WS-2", [exFileA])]
      = [StoreEvent.truncate, StoreEvent.tag "WS-1" "min" 1,
         StoreEvent.tag "WS-1" "max" 1, StoreEvent.tag "WS-1" "median" 1,
         StoreEvent.truncate, StoreEvent.tag "WS-2" "min" 1,
         StoreEvent.tag "WS-2" "max" 1, StoreEvent.tag "WS-2" "median" 1] := by
    unfold pipelineEvents
    simp [wsEvents_exA]
  have h2 : wsTags "WS-1" [exFileA]
      = [("WS-1", "min", 1), ("WS-1", "max", 1), ("WS-1", "median", 1)] := by
    unfold wsTags
    rw [wsEvents_exA]
    rfl
  refine ⟨by rw [h1]; rfl, by rw [h1]; rfl, by rw [h2]; decide, by rw [h1]; decide⟩

/-- Witness for the amended C3 at a one-workstation run. -/
theorem claim_C3_amended_witness :
    ("WS-1", [exFileA]) ∈ [("WS-1", [exFileA])] ∧
    (pipelineEvents [("WS-1", [exFileA])]).count StoreEvent.truncate = 1 ∧
    workstationEvents "WS-1" [exFileA]
      = StoreEvent.truncate :: (wsTags "WS-1" [exFileA]).map mkTag := by
  have h := claim_C3_amended [("WS-1", [exFileA])]
  exact ⟨by decide, h.1, h.2.1 ("WS-1", [exFileA]) (by decide)⟩

/-! ### Claim C4. -/

theorem ordinal_lit1 : get_ordinal_suffix "1" = "1st" := by
  unfold get_ordinal_suffix
  rw [pyInt_lit1]
  decide

theorem ordinal_lit2 : get_ordinal_suffix "2" = "2nd" := by
  unfold get_ordinal_suffix
  rw [pyInt_lit2]
  decide

theorem ordinal_lit12 : get_ordinal_suffix "12" = "12th" := by
  unfold get_ordinal_suffix
  rw [pyInt_lit12]
  decide

theorem parse_file_single (st v : String) (q : ℚ) (hv : ¬ v = "")
    (h : pyFloat v = some q) :
    parse_file true [[st, v]] = [(st, some q)] := by
  simp [parse_file, dedupKeepLast, hv, h]

theorem buildAllData_ex :
    buildAllData [("1", [["S", "5"]]), ("12", [["S", "10"]])]
        [("2", [["S", "20"]])] []
      = [("Max(2nd loop)", [("S", some 20)]),
         ("Min(1st loop)", [("S", some 5)]),
         ("Min(12th loop)", [("S", some 10)])] := by
  have hb5 := parse_file_single "S" "5" 5 (by decide) pyFloat_lit5
  have hb10 := parse_file_single "S" "10" 10 (by decide) pyFloat_lit10
  have hb20 := parse_file_single "S" "20" 20 (by decide) pyFloat_lit20
  simp [buildAllData, hb5, hb10, hb20, ordinal_lit1, ordinal_lit2, ordinal_lit12,
    show "Max(" ++ "2nd" ++ " loop)" = "Max(2nd loop)" from rfl,
    show "Min(" ++ "1st" ++ " loop)" = "Min(1st loop)" from rfl,
    show "Min(" ++ "12th" ++ " loop)" = "Min(12th loop)" from rfl]

/-- Counterexample to C4: with min indices 1 and 12 and max index 2, the
comparator computes the delta from `Min(1st loop)` — the first min column in
INSERTION order — giving `20 - 5 = 15`, whereas the lexicographically first
min column is `Min(12th loop)` and the claim's formula yields `20 - 10 = 10`. -/
theorem claim_C4_counterexample :
    colVals (process_comparison [("1", [["S", "5"]]), ("12", [["S", "10"]])]
        [("2", [["S", "20"]])] []).cols "Time_Difference(Max-Min)" = [some 15] ∧
    ppMinNames [("1", [["S", "5"]]), ("12", [["S", "10"]])] [("2", [["S", "20"]])] []
      = ["Min(1st loop)", "Min(12th loop)"] ∧
    (List.insertionSort StrLe ["Min(1st loop)", "Min(12th loop)"]).head?
      = some "Min(12th loop)" ∧
    seriesAt (parse_file true [["S", "10"]]) "S" = some 10 ∧
    seriesAt (parse_file true [["S", "20"]]) "S" = some 20 ∧
    round4 (20 - 10) = 10 ∧
    ¬ ((15 : ℚ) = 10) := by
  have hmin : ppMinNames [("1", [["S", "5"]]), ("12", [["S", "10"]])]
      [("2", [["S", "20"]])] [] = ["Min(1st loop)", "Min(12th loop)"] := by
    unfold ppMinNames
    rw [buildAllData_ex]
    decide
  have hmax : ppMaxNames [("1", [["S", "5"]]), ("12", [["S", "10"]])]
      [("2", [["S", "20"]])] [] = ["Max(2nd loop)"] := by
    unfold ppMaxNames
    rw [buildAllData_ex]
    decide
  have hstages : stageIndex (buildAllData [("1", [["S", "5"]]), ("12", [["S", "10"]])]
      [("2", [["S", "20"]])] []) = ["S"] := by
    rw [buildAllData_ex]
    simp [stageIndex, eraseDupsKeepFirst]
  have hbase : ppBase [("1", [["S", "5"]]), ("12", [["S", "10"]])]
      [("2", [["S", "20"]])] []
      = [("Max(2nd loop)", [some 20]), ("Min(1st loop)", [some 5]),
         ("Min(12th loop)", [some 10])] := by
    unfold ppBase
    rw [buildAllData_ex]
    simp [stageIndex, eraseDupsKeepFirst, seriesAt, List.find?]
  have hcols : ppCols [("1", [["S", "5"]]), ("12", [["S", "10"]])]
      [("2", [["S", "20"]])] []
      = [("Max(2nd loop)", [some 20]), ("Min(1st loop)", [some 5]),
         ("Min(12th loop)", [some 10]),
         ("Time_Difference(Max-Min)", [some 15])] := by
    unfold ppCols
    rw [if_pos (by rw [hmin, hmax]; exact ⟨by simp, by simp⟩)]
    rw [hbase, hmin, hmax]
    have hd : deltaCell (some 20) (some 5) = some 15 := by
      simp [deltaCell]
      norm_num [round4, roundHalfEven, Rat.floor]
    simp [colVals, List.find?, hd]
  have htable : process_comparison [("1", [["S", "5"]]), ("12", [["S", "10"]])]
      [("2", [["S", "20"]])] []
      = { stages := ["S"],
          cols := [("Max(2nd loop)", [some 20]), ("Min(1st loop)", [some 5]),
                   ("Min(12th loop)", [some 10]),
                   ("Time_Difference(Max-Min)", [some 15])] } := by
    unfold process_comparison
    rw [hstages, hcols]
    simp
  refine ⟨?_, hmin, by decide, ?_, ?_, ?_, by norm_num⟩
  · rw [htable]
    simp [colVals, List.find?]
  · rw [parse_file_single "S" "10" 10 (by decide) pyFloat_lit10]
    simp [seriesAt, List.find?]
  · rw [parse_file_single "S" "20" 20 (by decide) pyFloat_lit20]
    simp [seriesAt, List.find?]
  · norm_num [round4, roundHalfEven, Rat.floor]

/-- C4 as amended: when the table has at least one min-labeled and one
max-labeled column, the comparator appends a `Time_Difference(Max-Min)`
column computed cell-wise as `(max - min)` rounded half-even to 4 decimal
places, taking the FIRST max-labeled and FIRST min-labeled column in COLUMN
INSERTION ORDER (max block first, then min block, each in store order) — not
the lexicographically first; a min of 10.0 and a max of 11.2345 yield exactly
1.2345. -/
theorem claim_C4_amended (minFiles maxFiles abnFiles : List (String × List (List String)))
    (hmin : ppMinNames minFiles maxFiles abnFiles ≠ [])
    (hmax : ppMaxNames minFiles maxFiles abnFiles ≠ [])
    (hnolog : (stageIndex (buildAllData minFiles maxFiles abnFiles)).head?
        ≠ some "Log Folder Path") :
    (process_comparison minFiles maxFiles abnFiles).cols
      = ppBase minFiles maxFiles abnFiles
        ++ [("Time_Difference(Max-Min)",
            List.zipWith deltaCell
              (colVals (ppBase minFiles maxFiles abnFiles)
                ((ppMaxNames minFiles maxFiles abnFiles).headD ""))
              (colVals (ppBase minFiles maxFiles abnFiles)
                ((ppMinNames minFiles maxFiles abnFiles).headD "")))] ∧
    deltaCell (some 11.2345) (some 10) = some 1.2345 := by
  constructor
  · have hcols : ppCols minFiles maxFiles abnFiles
        = ppBase minFiles maxFiles abnFiles
          ++ [("Time_Difference(Max-Min)",
              List.zipWith deltaCell
                (colVals (ppBase minFiles maxFiles abnFiles)
                  ((ppMaxNames minFiles maxFiles abnFiles).headD ""))
                (colVals (ppBase minFiles maxFiles abnFiles)
                  ((ppMinNames minFiles maxFiles abnFiles).headD "")))] := by
      unfold ppCols
      rw [if_pos ⟨hmin, hmax⟩]
    unfold process_comparison
    cases hst : stageIndex (buildAllData minFiles maxFiles abnFiles) with
    | nil => simpa using hcols
    | cons st rest =>
      have hne : ¬ st = "Log Folder Path" := by
        intro he
        rw [hst, he] at hnolog
        exact hnolog rfl
      simp only []
      rw [if_neg hne]
      simpa using hcols
  · simp [deltaCell]
    norm_num [round4, roundHalfEven, Rat.floor]

/-- Witness for the amended C4 at the min `10.0` / max `11.2345` input: the
delta column holds exactly `1.2345`. -/
theorem claim_C4_witness :
    ppMinNames [("1", [["S", "10.0"]])] [("2", [["S", "11.2345"]])] [] ≠ [] ∧
    ppMaxNames [("1", [["S", "10.0"]])] [("2", [["S", "11.2345"]])] [] ≠ [] ∧
    (stageIndex (buildAllData [("1", [["S", "10.0"]])] [("2", [["S", "11.2345"]])] [])).head?
      ≠ some "Log Folder Path" ∧
    colVals (process_comparison [("1", [["S", "10.0"]])]
        [("2", [["S", "11.2345"]])] []).cols "Time_Difference(Max-Min)"
      = [some 1.2345] := by
  have hbd : buildAllData [("1", [["S", "10.0"]])] [("2", [["S", "11.2345"]])] []
      = [("Max(2nd loop)", [("S", some 11.2345)]),
         ("Min(1st loop)", [("S", some 10)])] := by
    have hb1 := parse_file_single "S" "10.0" 10 (by decide) pyFloat_lit10p0
    have hb2 := parse_file_single "S" "11.2345" 11.2345 (by decide) pyFloat_lit11p2345
    simp [buildAllData, hb1, hb2, ordinal_lit1, ordinal_lit2,
      show "Max(" ++ "2nd" ++ " loop)" = "Max(2nd loop)" from rfl,
      show "Min(" ++ "1st" ++ " loop)" = "Min(1st loop)" from rfl]
  have hminn : ppMinNames [("1", [["S", "10.0"]])] [("2", [["S", "11.2345"]])] []
      = ["Min(1st loop)"] := by
    unfold ppMinNames
    rw [hbd]
    decide
  have hmaxn : ppMaxNames [("1", [["S", "10.0"]])] [("2", [["S", "11.2345"]])] []
      = ["Max(2nd loop)"] := by
    unfold ppMaxNames
    rw [hbd]
    decide
  have hstages : stageIndex (buildAllData [("1", [["S", "10.0"]])]
      [("2", [["S", "11.2345"]])] []) = ["S"] := by
    rw [hbd]
    simp [stageIndex, eraseDupsKeepFirst]
  have hmin : ppMinNames [("1", [["S", "10.0"]])] [("2", [["S", "11.2345"]])] [] ≠ [] := by
    rw [hminn]; simp
  have hmax : ppMaxNames [("1", [["S", "10.0"]])] [("2", [["S", "11.2345"]])] [] ≠ [] := by
    rw [hmaxn]; simp
  have hnolog : (stageIndex (buildAllData [("1", [["S", "10.0"]])]
      [("2", [["S", "11.2345"]])] [])).head? ≠ some "Log Folder Path" := by
    rw [hstages]; simp
  refine ⟨hmin, hmax, hnolog, ?_⟩
  have hc := (claim_C4_amended [("1", [["S", "10.0"]])] [("2", [["S", "11.2345"]])] []
    hmin hmax hnolog).1
  rw [hc, hminn, hmaxn]
  have hbase : ppBase [("1", [["S", "10.0"]])] [("2", [["S", "11.2345"]])] []
      = [("Max(2nd loop)", [some 11.2345]), ("Min(1st loop)", [some 10])] := by
    unfold ppBase
    rw [hbd]
    simp [stageIndex, eraseDupsKeepFirst, seriesAt, List.find?]
  rw [hbase]
  have hd : deltaCell (some 11.2345) (some 10) = some 1.2345 := by
    simp [deltaCell]
    norm_num [round4, roundHalfEven, Rat.floor]
  simp [colVals, List.find?, hd]

/-! ### Claim C1. -/

theorem ext_time_data_mem_ts (files : List PFile) (r : PFile × PyDateTime × ℚ)
    (h : r ∈ ext_time_data files) :
    extract_timestamp r.1 = some r.2.1 ∧ extract_restore_time r.1 = some r.2.2 := by
  unfold ext_time_data at h
  obtain ⟨f, hf, hmatch⟩ := List.mem_filterMap.mp h
  cases het : extract_timestamp f with
  | none =>
    rw [het] at hmatch
    simp at hmatch
  | some t =>
    cases hrt : extract_restore_time f with
    | none =>
      rw [het, hrt] at hmatch
      simp at hmatch
    | some v =>
      rw [het, hrt] at hmatch
      simp only [Option.some.injEq] at hmatch
      rw [← hmatch]
      exact ⟨het, hrt⟩

theorem ext_sorted_mem_ts (files : List PFile) (r : PFile × PyDateTime × ℚ)
    (h : r ∈ ext_sorted files) :
    extract_timestamp r.1 = some r.2.1 :=
  (ext_time_data_mem_ts files r
    ((List.perm_insertionSort extRecLe (ext_time_data files)).mem_iff.mp h)).1

theorem extract_timestamp_identifier_of_ts (f : PFile) (t : PyDateTime)
    (h : extract_timestamp f = some t) :
    ∃ tok, findTSToken f.name.data = some tok ∧ strptimeTS tok = some t ∧
      extract_timestamp_identifier f = String.mk tok := by
  unfold extract_timestamp at h
  cases htok : findTSToken f.name.data with
  | none =>
    rw [htok] at h
    simp at h
  | some tok =>
    rw [htok] at h
    refine ⟨tok, rfl, h, ?_⟩
    have hne : f.parts ≠ [] := by
      intro hnil
      have hnm : f.name = "" := by rw [PFile.name, hnil]; rfl
      rw [hnm, show findTSToken ("" : String).data = none from by decide] at htok
      exact Option.noConfusion htok
    obtain ⟨a, tl, hr⟩ : ∃ a tl, f.parts.reverse = a :: tl := by
      cases hrev : f.parts.reverse with
      | nil => exact absurd (List.reverse_eq_nil_iff.mp hrev) hne
      | cons a tl => exact ⟨a, tl, rfl⟩
    have hname : a = f.name := by
      have h1 : f.parts.reverse.head? = f.parts.getLast? := List.head?_reverse _
      rw [hr] at h1
      rw [PFile.name, ← h1]
      rfl
    unfold extract_timestamp_identifier
    rw [hr, hname]
    unfold findTokenInParts
    rw [htok]

theorem strLeB_strptime (cs ds : List Char) (a b : PyDateTime)
    (hc : strptimeTS cs = some a) (hd : strptimeTS ds = some b) :
    strLeB (String.mk cs) (String.mk ds) = dtLeB a b := by
  show lexLe (cs.map Char.toNat) (ds.map Char.toNat) = lexLe a.fields b.fields
  exact strptimeTS_mono cs ds a b hc hd

theorem nodup_indexOf_of_get? {l : List String} (h : l.Nodup) (k : Nat) (a : String)
    (hg : l.get? k = some a) : l.indexOf a = k := by
  induction l generalizing k with
  | nil => simp at hg
  | cons b t ih =>
    cases k with
    | zero =>
      have hb : b = a := by simpa using hg
      rw [hb, List.indexOf_cons_self]
    | succ k =>
      have hg' : t.get? k = some a := by simpa using hg
      have hmem : a ∈ t := List.get?_mem hg'
      have hne : b ≠ a := by
        rintro rfl
        exact (List.nodup_cons.mp h).1 hmem
      rw [List.indexOf_cons_ne _ hne, ih (List.nodup_cons.mp h).2 k hg']

/-- Counterexample to C1: the tree holds one cycle-time record
(`2024-01-02_10-00-00-cycleTime.csv`) and one earlier log file
(`logs/2024-01-01_09-00-00-host.log`).  The Extractor sees only the record
file, making it sample 1, while the Classifier also groups the log file's
earlier timestamp, so the record's group gets index 2 ≠ 1. -/
theorem claim_C1_counterexample :
    (ext_sorted [exFileA, exFileB]).map (fun r => r.1) = [exFileA] ∧
    extract_timestamp_identifier exFileA = "2024-01-02_10-00-00" ∧
    classifierIndex [exFileA, exFileB] (extract_timestamp_identifier exFileA) = 2 ∧
    ¬ (2 = 1) := by
  refine ⟨?_, by decide, by decide, by decide⟩
  have hfc : find_cycle_files [exFileA, exFileB] = [exFileA] := by decide
  have het : extract_timestamp exFileA = some ⟨2024, 1, 2, 10, 0, 0⟩ := by decide
  unfold ext_sorted ext_time_data
  rw [hfc]
  simp only [List.filterMap_cons, List.filterMap_nil, het, extract_restore_time_exA]
  simp [List.insertionSort, List.orderedInsert]

/-- C1 as amended: the Classifier's 1-based indices agree with the
Extractor's sample numbers ONLY on trees where the Classifier's group keys
are exactly (a permutation of) the identifiers of the Extractor's kept
records — i.e. no extra log-only timestamp groups, no `unknown` group, and
no record dropped for an unparseable duration cell.  Under that hypothesis,
the file of Extractor sample `k+1` lands in the Classifier group with index
`k+1`. -/
theorem claim_C1_amended (files : List PFile)
    (hperm : (classifierKeys files).Perm
      ((ext_sorted files).map (fun r => extract_timestamp_identifier r.1)))
    (k : Nat) (f : PFile) (t : PyDateTime) (v : ℚ)
    (hk : (ext_sorted files).get? k = some (f, t, v)) :
    classifierIndex files (extract_timestamp_identifier f) = k + 1 := by
  have hsortE : (ext_sorted files).Pairwise extRecLe :=
    List.sorted_insertionSort extRecLe (ext_time_data files)
  have hmemts : ∀ r ∈ ext_sorted files, extract_timestamp r.1 = some r.2.1 :=
    fun r hr => ext_sorted_mem_ts files r hr
  have hpair : ((ext_sorted files).map (fun r => extract_timestamp_identifier r.1)).Pairwise
      StrLe := by
    rw [List.pairwise_map]
    refine hsortE.imp_of_mem ?_
    intro a b ha hb hab
    obtain ⟨toka, hfa, hsa, hia⟩ :=
      extract_timestamp_identifier_of_ts a.1 a.2.1 (hmemts a ha)
    obtain ⟨tokb, hfb, hsb, hib⟩ :=
      extract_timestamp_identifier_of_ts b.1 b.2.1 (hmemts b hb)
    rw [hia, hib]
    show strLeB (String.mk toka) (String.mk tokb) = true
    rw [strLeB_strptime toka tokb a.2.1 b.2.1 hsa hsb]
    exact hab
  have hst : sorted_timestamps files
      = (ext_sorted files).map (fun r => extract_timestamp_identifier r.1) :=
    List.eq_of_perm_of_sorted
      ((List.perm_insertionSort StrLe (classifierKeys files)).trans hperm)
      (List.sorted_insertionSort StrLe (classifierKeys files)) hpair
  have hnodup : ((ext_sorted files).map (fun r => extract_timestamp_identifier r.1)).Nodup :=
    hperm.nodup (classifierKeys_nodup files)
  have hgk : ((ext_sorted files).map (fun r => extract_timestamp_identifier r.1)).get? k
      = some (extract_timestamp_identifier f) := by
    rw [List.get?_map, hk]
    rfl
  show (sorted_timestamps files).indexOf (extract_timestamp_identifier f) + 1 = k + 1
  rw [hst, nodup_indexOf_of_get? hnodup k _ hgk]

/-- Witness for the amended C1: on a tree holding the single record
`exFileA`, Extractor sample 1 is `exFileA` and the Classifier assigns its
timestamp group index 1. -/
theorem claim_C1_witness :
    (classifierKeys [exFileA]).Perm
      ((ext_sorted [exFileA]).map (fun r => extract_timestamp_identifier r.1)) ∧
    (ext_sorted [exFileA]).get? 0 = some (exFileA, ⟨2024, 1, 2, 10, 0, 0⟩, 5) ∧
    classifierIndex [exFileA] (extract_timestamp_identifier exFileA) = 0 + 1 := by
  have hE : ext_sorted [exFileA] = [(exFileA, ⟨2024, 1, 2, 10, 0, 0⟩, 5)] := by
    have hfc : find_cycle_files [exFileA] = [exFileA] := by decide
    have het : extract_timestamp exFileA = some ⟨2024, 1, 2, 10, 0, 0⟩ := by decide
    unfold ext_sorted ext_time_data
    rw [hfc]
    simp only [List.filterMap_cons, List.filterMap_nil, het, extract_restore_time_exA]
    simp [List.insertionSort, List.orderedInsert]
  have hperm : (classifierKeys [exFileA]).Perm
      ((ext_sorted [exFileA]).map (fun r => extract_timestamp_identifier r.1)) := by
    rw [hE]
    decide
  have hk : (ext_sorted [exFileA]).get? 0 = some (exFileA, ⟨2024, 1, 2, 10, 0, 0⟩, 5) := by
    rw [hE]
    rfl
  exact ⟨hperm, hk, claim_C1_amended [exFileA] hperm 0 exFileA _ 5 hk⟩

end CycleTime
